import Mathlib

/-!
Verification of `mvpa/mappers/zscore.py` (PyMVPA Z-scoring mapper).

Embedding choices:
* Matrix entries are exact rationals (idealizing IEEE floats, as the spec's
  exactness statements do).
* numpy `std` takes a square root; the square-root function is passed as an
  explicit parameter `sq : ℚ → ℚ` to everything that estimates parameters.
  Theorems that depend on it assume only properties shared by the exact and
  the floating-point square root (such as `sq 0 = 0`).  `ratSqrt` below is a
  concrete executable instance used by witnesses.
* Buffer aliasing (in-place vs. copy semantics) is modelled with an explicit
  heap of numpy buffers addressed by `Ref`.
* Python exceptions become `Except ZErr`.
-/

set_option maxHeartbeats 1000000

deriving instance DecidableEq for Except

attribute [local semireducible] Rat.add Rat.sub Rat.mul Rat.inv

/-- Row-major matrix of rationals: outer list = samples, inner lists = feature rows. -/
abbrev Mat := List (List ℚ)

/-- numpy element dtype, reduced to the integer/floating distinction the code tests. -/
inductive DType where
  | int
  | float
deriving DecidableEq

/-- A numpy array buffer: element dtype plus row-major contents. -/
structure Buf where
  dtype : DType
  data : Mat
deriving DecidableEq

/-- Heap reference to a buffer. -/
abbrev Ref := Nat

/-- Heap of allocated numpy buffers. -/
abbrev Heap := List Buf

def readH (h : Heap) (r : Ref) : Buf := h.getD r ⟨.float, []⟩

def writeH (h : Heap) (r : Ref) (b : Buf) : Heap := h.set r b

def allocH (h : Heap) (b : Buf) : Heap × Ref := (h ++ [b], h.length)

/-- A mean or std argument of `_zscore`: numpy scalar or per-feature 1-D array. -/
inductive MP where
  | scalar (c : ℚ)
  | vector (v : List ℚ)
deriving DecidableEq

/-- A `(mean, std)` parameter pair. -/
abbrev MeanStd := MP × MP

/-- Key of the internal parameter dictionary: the string `__all__` or a chunk id. -/
inductive PKey where
  | all
  | chunk (c : ℤ)
deriving DecidableEq, BEq

/-- The `__params_dict` mapping populated by `_train`. -/
abbrev ParamsDict := List (PKey × MeanStd)

def pdLookup (pd : ParamsDict) (k : PKey) : Option MeanStd :=
  (pd.find? (fun e => decide (e.1 = k))).map (·.2)

/-- Python-level errors raised by the mapper (`RuntimeError` / `KeyError` / ...). -/
inductive ZErr where
  /-- "ZScoreMapper needs to be trained before call to forward" -/
  | notTrained
  /-- "... has no parameters for chunk ... wasn't present in the training dataset" -/
  | missingGroup
  /-- "mean should be a per-feature vector" -/
  | meanShape
  /-- "std should be a per-feature vector" -/
  | stdShape
  /-- "cannot do chunk-wise Z-scoring of plain data" (spec: UnsupportedBareMatrixUsage) -/
  | chunksOnPlain
  /-- "cannot do Z-scoring with estimating parameters on ... plain data" (spec: UnsupportedBareMatrixUsage) -/
  | paramEstOnPlain
  /-- KeyError from a sample-attribute lookup on a dataset lacking that attribute -/
  | attrMissing
  /-- ValueError from taking the min of zero per-chunk sample counts (empty data) -/
  | emptyData
  /-- KeyError from `params` lacking the `__all__` key in `_forward_data` -/
  | keyAllMissing
  /-- IndexError: numpy rejects a Python set as a fancy index, raised by the
  global-estimate branch `ds.samples[est_ids]` when a selector is configured
  with grouping disabled -/
  | setIndexError
deriving DecidableEq

/-- `samples.shape[1]` for a row-major matrix. -/
def width (m : Mat) : ℕ := (m.headD []).length

/-- `ZScoreMapper._zscore`: subtract `mean`, then divide by `std`, with the
zero-std guards of the source (scalar zero std sets everything to 0; a
per-feature std only divides the columns whose std is nonzero). -/
def zscoreStep (samples : Mat) (mean std : MP) : Except ZErr Mat := do
  let d : Mat ←
    match mean with
    | .scalar c => Except.ok (samples.map (fun r => r.map (fun x => x - c)))
    | .vector v =>
      if width samples = v.length then
        Except.ok (samples.map (fun r => r.zipWith (fun x mj => x - mj) v))
      else Except.error .meanShape
  match std with
  | .scalar s =>
    if s = 0 then Except.ok (d.map (fun r => r.map (fun _ => 0)))
    else Except.ok (d.map (fun r => r.map (fun x => x / s)))
  | .vector v =>
    if width d ≠ v.length then Except.error .stdShape
    else Except.ok (d.map (fun r => r.zipWith (fun x sj => if sj = 0 then x else x / sj) v))

/-- numpy `samples.mean(axis=0)` at column `j`. -/
def colMean (m : Mat) (j : ℕ) : ℚ := (m.map (fun r => r.getD j 0)).sum / (m.length : ℚ)

/-- The variance (mean of squared deviations) of column `j`; numpy std is its square root. -/
def colVar (m : Mat) (j : ℕ) : ℚ :=
  (m.map (fun r => (r.getD j 0 - colMean m j) ^ 2)).sum / (m.length : ℚ)

def colMeans (m : Mat) : List ℚ := (List.range (width m)).map (colMean m)

def colStds (sq : ℚ → ℚ) (m : Mat) : List ℚ :=
  (List.range (width m)).map (fun j => sq (colVar m j))

/-- `ZScoreMapper._compute_params`: per-feature mean and std vectors. -/
def computeParams (sq : ℚ → ℚ) (m : Mat) : MeanStd :=
  (.vector (colMeans m), .vector (colStds sq m))

/-- Largest k with k * k <= n, by structural descent (kernel-reducible). -/
def natSqrtAux : ℕ → ℕ → ℕ
  | 0, _ => 0
  | k + 1, n => if (k + 1) * (k + 1) ≤ n then k + 1 else natSqrtAux k n

def natSqrt (n : ℕ) : ℕ := natSqrtAux n n

/-- Exact rational square root where one exists, else 0.  A concrete executable
stand-in for the numeric square root inside numpy `std`; every theorem that
involves the square root only assumes properties this function shares with it
(in particular `ratSqrt 0 = 0`). -/
def ratSqrt (q : ℚ) : ℚ :=
  let c : ℚ := (natSqrt q.num.toNat : ℚ) / (natSqrt q.den : ℚ)
  if c * c = q then c else 0

/-- The `params` constructor argument: a bare `(mean, std)` pair or a
chunk-id-keyed dictionary of such pairs. -/
inductive FixedParams where
  | pair (p : MeanStd)
  | dict (d : List (ℤ × MeanStd))
deriving DecidableEq

/-- The `ZScoreMapper` instance state: constructor configuration plus the
`__params_dict` produced by training and the `_secret_inplace_zscore` switch. -/
structure ZScoreMapper where
  chunks : Option String
  params : Option FixedParams
  param_est : Option (String × List ℤ)
  dtype : DType
  params_dict : Option ParamsDict
  secret_inplace : Bool
deriving DecidableEq

/-- `ZScoreMapper.__init__`: stores the configuration, leaves the instance
untrained (`__params_dict = None`) and the in-place switch off. -/
def ZScoreMapper.init (params : Option FixedParams) (param_est : Option (String × List ℤ))
    (chunks : Option String) (dtype : DType) : ZScoreMapper :=
  ⟨chunks, params, param_est, dtype, none, false⟩

/-- A mapper built with all-default constructor arguments (`chunks` defaults to
the attribute name "chunks", `params` and `param_est` to `None`, `dtype` to float64). -/
def defaultMapper : ZScoreMapper := .init none none (some "chunks") .float

/-- A dataset: a reference to its samples buffer plus its per-sample attribute
collection (attribute name to per-sample values).  Non-matrix metadata other
than `sa` plays no role in this unit and is omitted. -/
structure Dataset where
  samples : Ref
  sa : List (String × List ℤ)
deriving DecidableEq

def saLookup (ds : Dataset) (nm : String) : Option (List ℤ) :=
  (ds.sa.find? (fun e => e.1 == nm)).map (·.2)

/-- `get_samples_by_attr(ds, attr, values)` as an ascending index list (the
source materializes it as a python set, whose order is immaterial: the indices
select rows only for mean/std computation, which is permutation invariant). -/
def estIds (av : List ℤ) (vals : List ℤ) : List ℕ :=
  (List.range av.length).filter (fun i => decide (av.getD i 0 ∈ vals))

/-- `N.where(value == c)[0]`: ascending indices of the samples in chunk `c`. -/
def whereEq (ca : List ℤ) (c : ℤ) : List ℕ :=
  (List.range ca.length).filter (fun i => decide (ca.getD i 0 = c))

/-- numpy fancy-read `m[idx]`. -/
def selectRows (m : Mat) (idx : List ℕ) : Mat := idx.map (fun i => m.getD i [])

/-- numpy fancy-write `m[idx] = rows`. -/
def setRows : Mat → List ℕ → Mat → Mat
  | m, [], _ => m
  | m, _ :: _, [] => m
  | m, i :: is, r :: rs => setRows (m.set i r) is rs

/-- `ZScoreMapper._train`: fixed parameters are used directly (a bare pair under
`__all__`, a dict as per-chunk parameters); otherwise `(mean, std)` is estimated
per chunk or globally from the samples eligible under `param_est`.  The dedup
order of chunk ids and the ascending order inside the estimation subset are
immaterial: the dictionary is keyed and mean/std are permutation invariant.
The chunked branch turns the eligible set into a list before indexing; the
global branch indexes `ds.samples` with the Python set itself, which numpy
rejects, so that configuration raises instead of estimating. -/
def trainParams (sq : ℚ → ℚ) (zm : ZScoreMapper) (h : Heap) (ds : Dataset) :
    Except ZErr ParamsDict :=
  match zm.params with
  | some (.pair p) => .ok [(.all, p)]
  | some (.dict d) => .ok (d.map (fun e => (PKey.chunk e.1, e.2)))
  | none => do
    let m := (readH h ds.samples).data
    let est : Option (List ℕ) ←
      match zm.param_est with
      | none => pure none
      | some pe =>
        match saLookup ds pe.1 with
        | none => Except.error .attrMissing
        | some av => pure (some (estIds av pe.2))
    match zm.chunks with
    | some nm =>
      match saLookup ds nm with
      | none => Except.error .attrMissing
      | some ca =>
        Except.ok ((ca.dedup).map (fun c =>
          let slicer := whereEq ca c
          let slicer :=
            match est with
            | none => slicer
            | some s => slicer.filter (fun i => decide (i ∈ s))
          (PKey.chunk c, computeParams sq (selectRows m slicer))))
    | none =>
      match est with
      | none => Except.ok [(.all, computeParams sq m)]
      | some _ =>
        -- `ds.samples[est_ids]` with `est_ids` a Python set: numpy rejects a
        -- set as a fancy index, so the global estimate with a selector raises
        Except.error .setIndexError

/-- Modelled from the spec: the base `Mapper.train` entry point (the base class
is not under src/) runs parameter estimation and stores the result on the
instance; apply never auto-trains ("instance must be trained, else fails with
an untrained error"). -/
def ZScoreMapper.train (zm : ZScoreMapper) (sq : ℚ → ℚ) (h : Heap) (ds : Dataset) :
    Except ZErr ZScoreMapper :=
  (trainParams sq zm h ds).map (fun pd => {zm with params_dict := some pd})

/-- Modelled from the spec: `Dataset.copy(deep=False)` (Dataset is not under
src/) yields "a shallow duplicate of the collection (new matrix storage, shared
non-matrix metadata)". -/
def Dataset.shallowCopy (h : Heap) (ds : Dataset) : Heap × Dataset :=
  let a := allocH h (readH h ds.samples)
  (a.1, {ds with samples := a.2})

/-- The per-chunk loop of `_forward_dataset`: for each chunk id, look its
parameters up (error if absent), z-score that chunk's row slice and write it
back.  On an error the partially updated matrix is discarded; the partial
in-place mutation the source would leave behind in that (unclaimed) corner is
not modelled. -/
def chunkLoop (pd : ParamsDict) (ca : List ℤ) : List ℤ → Mat → Except ZErr Mat
  | [], m => .ok m
  | c :: cs, m =>
    match pdLookup pd (.chunk c) with
    | none => .error .missingGroup
    | some p => do
      let z ← zscoreStep (selectRows m (whereEq ca c)) p.1 p.2
      chunkLoop pd ca cs (setRows m (whereEq ca c) z)

/-- The integer-upcast step of `_forward_dataset`:
`mds.samples = mds.samples.astype(dtype)` rebinds the samples attribute of the
working dataset to a freshly allocated floating buffer when the data is integer. -/
def upcast (zm : ZScoreMapper) (hm : Heap × Dataset) : Heap × Dataset :=
  let b := readH hm.1 hm.2.samples
  if b.dtype = .int then
    let a := allocH hm.1 ⟨zm.dtype, b.data⟩
    (a.1, {hm.2 with samples := a.2})
  else hm

/-- The parameter-application tail of `_forward_dataset` (after the working
dataset `hm2` has been chosen and upcast): global `__all__` parameters are
applied to the whole matrix, otherwise each chunk present in the data is
looked up (error if absent) and z-scored in place. -/
def applyParams (zm : ZScoreMapper) (ds : Dataset) (caOpt : Option (List ℤ))
    (pd : ParamsDict) (hm2 : Heap × Dataset) : Except ZErr (Heap × Dataset × Dataset) :=
  let finish : Mat → Except ZErr (Heap × Dataset × Dataset) := fun z =>
    let h4 := writeH hm2.1 hm2.2.samples ⟨(readH hm2.1 hm2.2.samples).dtype, z⟩
    Except.ok (h4, hm2.2, if zm.secret_inplace then hm2.2 else ds)
  match pdLookup pd .all with
  | some p => do
    let z ← zscoreStep (readH hm2.1 hm2.2.samples).data p.1 p.2
    finish z
  | none =>
    match caOpt with
    | none => Except.error .attrMissing -- per-chunk params with chunks=None: `mds.sa[None]` fails
    | some ca => do
      let z ← chunkLoop pd ca ca.dedup (readH hm2.1 hm2.2.samples).data
      finish z

/-- `ZScoreMapper._forward_dataset`.  Returns `(final heap, mapped dataset,
state of the caller's dataset object after the call)`: under the in-place
switch the caller's object is the mapped object; otherwise it is untouched. -/
def forwardDataset (zm : ZScoreMapper) (h : Heap) (ds : Dataset) :
    Except ZErr (Heap × Dataset × Dataset) := do
  -- degenerate-chunk warning probe: non-fatal warning, but the attribute lookup
  -- and the min over per-chunk counts can themselves fail
  let caOpt : Option (List ℤ) ←
    match zm.chunks with
    | none => pure none
    | some nm =>
      match saLookup ds nm with
      | none => Except.error .attrMissing
      | some ca => if ca.isEmpty then Except.error .emptyData else pure (some ca)
  match zm.params_dict with
  | none => Except.error .notTrained
  | some pd =>
    applyParams zm ds caOpt pd
      (upcast zm (if zm.secret_inplace then (h, ds) else Dataset.shallowCopy h ds))

/-- `ZScoreMapper._forward_data` (plain ndarray path): refuses chunked or
subset-estimated configurations, then z-scores a private copy (`astype` for
integer input, `copy()` otherwise) and returns it; the caller's buffer is
never written. -/
def forwardData (zm : ZScoreMapper) (h : Heap) (r : Ref) : Except ZErr (Heap × Ref) :=
  if zm.chunks ≠ none then .error .chunksOnPlain
  else if zm.param_est ≠ none then .error .paramEstOnPlain
  else
    match zm.params_dict with
    | none => .error .notTrained
    | some pd =>
      let b := readH h r
      let mdtype := if b.dtype = .int then zm.dtype else b.dtype
      match pdLookup pd .all with
      | none => .error .keyAllMissing
      | some p => do
        let z ← zscoreStep b.data p.1 p.2
        let a := allocH h ⟨mdtype, z⟩
        Except.ok (a.1, a.2)

/-- A caller-supplied argument: a dataset or a bare ndarray. -/
inductive DataOrDs where
  | ds (d : Dataset)
  | arr (r : Ref)
deriving DecidableEq

/-- The convenience function `zscore(ds, **kwargs)`: builds a mapper, switches
the secret in-place flag on, trains (wrapping a bare ndarray in a fresh
attribute-less `Dataset`, modelled from the spec since the Dataset constructor
is not under src/), forwards, appends the mapper to the mapped dataset's
history (metadata only) and falls off the end, returning Python `None`.
Result: `(final heap, final state of the caller's argument, return value)`. -/
def zscoreFn (sq : ℚ → ℚ) (params : Option FixedParams)
    (param_est : Option (String × List ℤ)) (chunks : Option String) (dtype : DType)
    (h : Heap) (input : DataOrDs) : Except ZErr (Heap × DataOrDs × Option Mat) := do
  let zm0 := ZScoreMapper.init params param_est chunks dtype
  let zm1 := {zm0 with secret_inplace := true}
  match input with
  | .ds d => do
    let zm2 ← zm1.train sq h d
    let fr ← forwardDataset zm2 h d
    Except.ok (fr.1, .ds fr.2.2, none)
  | .arr r => do
    let wrapped : Dataset := ⟨r, []⟩
    let zm2 ← zm1.train sq h wrapped
    let fr ← forwardData zm2 h r
    Except.ok (fr.1, .arr r, none)

/-- Train-then-apply on one dataset, extracting the mapped sample matrix. -/
def fitApply (sq : ℚ → ℚ) (zm0 : ZScoreMapper) (h : Heap) (ds : Dataset) : Except ZErr Mat := do
  let zm ← zm0.train sq h ds
  let fr ← forwardDataset zm h ds
  Except.ok (readH fr.1 fr.2.1.samples).data

/-! ### Structural companions of the index-based slice operations (proof helpers) -/

/-- Structural form of `selectRows m (whereEq ca c)`. -/
def gatherRows : Mat → List ℤ → ℤ → Mat
  | _, [], _ => []
  | [], _ :: as, c => gatherRows [] as c
  | r :: rs, a :: as, c => if a = c then r :: gatherRows rs as c else gatherRows rs as c

/-- Structural form of `setRows m (whereEq ca c) z`. -/
def scatterRows : Mat → List ℤ → ℤ → Mat → Mat
  | m, [], _, _ => m
  | [], _ :: _, _, _ => []
  | r :: rs, a :: as, c, z =>
    if a = c then z.headD r :: scatterRows rs as c z.tail else r :: scatterRows rs as c z

/-- Shape compatibility of one `_zscore` parameter with feature count `w`:
scalars always fit, a vector must have length `w`. -/
def fitsW : MP → ℕ → Prop
  | .scalar _, _ => True
  | .vector v, w => v.length = w

instance (p : MP) (w : ℕ) : Decidable (fitsW p w) :=
  match p with
  | .scalar _ => isTrue trivial
  | .vector v => inferInstanceAs (Decidable (v.length = _))

/-- The matrix produced by the vector-parameter z-score of estimated
parameters; proof-side abbreviation. -/
def vvApply (sq : ℚ → ℚ) (M : Mat) : Mat :=
  M.map (fun r => (r.zipWith (fun x mj => x - mj) (colMeans M)).zipWith
    (fun x sj => if sj = 0 then x else x / sj) (colStds sq M))

def c1heap : Heap := [⟨.float, [[1, 3], [3, 5]]⟩]

def c1ds : Dataset := ⟨0, []⟩

def c1zm : ZScoreMapper :=
  ⟨none, none, none, .float, some [(.all, (.vector [2, 4], .vector [1, 2]))], false⟩

def c8zm : ZScoreMapper := ⟨none, none, none, .float, some [(.all, (.scalar 0, .scalar 1))], true⟩

def c5zm : ZScoreMapper := ⟨none, none, none, .float, some [(.all, (.scalar 0, .scalar 2))], false⟩

def c5heap : Heap := [⟨.int, [[2], [4]]⟩]

def c5heap2 : Heap := [⟨.int, [[2], [4]]⟩, ⟨.int, [[2], [4]]⟩, ⟨.float, [[1], [2]]⟩]

def c10dsT : Dataset := ⟨0, [("chunks", [5, 5])]⟩

def c10heapT : Heap := [⟨.float, [[1], [2]]⟩]

def c10zm2 : ZScoreMapper :=
  ⟨some "chunks", none, none, .float,
    some [(.chunk 5, (.vector [3/2], .vector [1/2]))], false⟩

def c4zm : ZScoreMapper :=
  ⟨some "chunks", none, none, .float,
    some [(.chunk 1, (.vector [0], .vector [1]))], false⟩

def c4ds : Dataset := ⟨0, [("chunks", [1, 2])]⟩

/-! ### Generic list and heap lemmas -/

theorem getD_map_pos {α β : Type} (f : α → β) (l : List α) {i : ℕ} (h : i < l.length)
    (d : β) (d₀ : α) : (l.map f).getD i d = f (l.getD i d₀) := by
  rw [List.getD_eq_getElem _ _ (show i < (l.map f).length by simpa using h),
    List.getElem_map, List.getD_eq_getElem _ _ h]

theorem getD_zipWith_pos {α β γ : Type} (f : α → β → γ) (l₁ : List α) (l₂ : List β) {i : ℕ}
    (h₁ : i < l₁.length) (h₂ : i < l₂.length) (d : γ) (d₁ : α) (d₂ : β) :
    (List.zipWith f l₁ l₂).getD i d = f (l₁.getD i d₁) (l₂.getD i d₂) := by
  rw [List.getD_eq_getElem _ _ (show i < (List.zipWith f l₁ l₂).length by
      rw [List.length_zipWith]; exact lt_min h₁ h₂),
    List.getElem_zipWith, List.getD_eq_getElem _ _ h₁, List.getD_eq_getElem _ _ h₂]

theorem getD_range_pos {n i : ℕ} (h : i < n) (d : ℕ) : (List.range n).getD i d = i := by
  rw [List.getD_eq_getElem _ _ (by simpa using h)]
  exact List.getElem_range i _

theorem readH_append (h : Heap) (l : List Buf) {r : Ref} (hr : r < h.length) :
    readH (h ++ l) r = readH h r :=
  List.getD_append _ _ _ _ hr

theorem readH_writeH_ne (h : Heap) {r r2 : Ref} (b : Buf) (hne : r2 ≠ r) :
    readH (writeH h r2 b) r = readH h r := by
  unfold readH writeH
  rw [List.getD_eq_getElem?_getD, List.getD_eq_getElem?_getD, List.getElem?_set_ne hne]

theorem readH_writeH_self (h : Heap) {r : Ref} (b : Buf) (hr : r < h.length) :
    readH (writeH h r b) r = b := by
  unfold readH writeH
  rw [List.getD_eq_getElem?_getD, List.getElem?_set_self hr]
  rfl

theorem sum_map_const {α : Type} (l : List α) (f : α → ℚ) (c : ℚ)
    (h : ∀ x ∈ l, f x = c) : (l.map f).sum = l.length * c := by
  induction l with
  | nil => simp
  | cons a t ih =>
    rw [List.map_cons, List.sum_cons, h a (by simp), ih (fun x hx => h x (by simp [hx])),
      List.length_cons]
    push_cast
    ring

theorem colMean_const {m : Mat} {j : ℕ} {c : ℚ} (hm : m ≠ [])
    (h : ∀ r ∈ m, r.getD j 0 = c) : colMean m j = c := by
  have hlen : (m.length : ℚ) ≠ 0 := by
    have := List.length_pos.mpr hm
    exact_mod_cast Nat.pos_iff_ne_zero.mp this
  unfold colMean
  rw [sum_map_const _ _ c h]
  field_simp

theorem colVar_const {m : Mat} {j : ℕ} {c : ℚ} (hm : m ≠ [])
    (h : ∀ r ∈ m, r.getD j 0 = c) : colVar m j = 0 := by
  unfold colVar
  rw [sum_map_const _ _ 0 (fun r hr => by rw [h r hr, colMean_const hm h]; ring)]
  simp

/-! ### Bridging the index-based slicing to its structural companions -/

theorem whereEq_cons (a : ℤ) (as : List ℤ) (c : ℤ) :
    whereEq (a :: as) c =
      (if a = c then [0] else []) ++ (whereEq as c).map Nat.succ := by
  unfold whereEq
  rw [List.length_cons, List.range_succ_eq_map, List.filter_cons]
  simp only [List.filter_map]
  have hp : ((fun i => decide ((a :: as).getD i 0 = c)) ∘ Nat.succ) =
      fun i => decide (as.getD i 0 = c) := by
    funext i
    simp [Function.comp, List.getD_cons_succ]
  rw [hp]
  by_cases hac : a = c <;> simp [hac]

theorem mem_whereEq {ca : List ℤ} {c : ℤ} {i : ℕ} :
    i ∈ whereEq ca c ↔ i < ca.length ∧ ca.getD i 0 = c := by
  unfold whereEq
  simp [List.mem_filter, List.mem_range]

theorem whereEq_ne_nil {ca : List ℤ} {c : ℤ} (h : c ∈ ca) : whereEq ca c ≠ [] := by
  obtain ⟨i, hi, hci⟩ := List.mem_iff_getElem.mp h
  exact List.ne_nil_of_mem (mem_whereEq.mpr ⟨hi, by rw [List.getD_eq_getElem _ _ hi]; exact hci⟩)

theorem selectRows_map_succ (r : List ℚ) (rs : Mat) (idx : List ℕ) :
    selectRows (r :: rs) (idx.map Nat.succ) = selectRows rs idx := by
  unfold selectRows
  rw [List.map_map]
  simp [Function.comp, List.getD_cons_succ]

theorem gatherRows_cons (r : List ℚ) (rs : Mat) (a : ℤ) (as : List ℤ) (c : ℤ) :
    gatherRows (r :: rs) (a :: as) c =
      if a = c then r :: gatherRows rs as c else gatherRows rs as c := rfl

theorem gatherRows_nil_ca (m : Mat) (c : ℤ) : gatherRows m [] c = [] := by
  cases m <;> rfl

theorem scatterRows_cons (r : List ℚ) (rs : Mat) (a : ℤ) (as : List ℤ) (c : ℤ) (z : Mat) :
    scatterRows (r :: rs) (a :: as) c z =
      if a = c then z.headD r :: scatterRows rs as c z.tail
      else r :: scatterRows rs as c z := rfl

theorem scatterRows_nil_ca (m : Mat) (c : ℤ) (z : Mat) : scatterRows m [] c z = m := by
  cases m <;> rfl

theorem setRows_nil_idx (m : Mat) (z : Mat) : setRows m [] z = m := by
  cases z <;> rfl

theorem setRows_cons_nil (m : Mat) (i : ℕ) (is : List ℕ) : setRows m (i :: is) [] = m := rfl

theorem setRows_cons_cons (m : Mat) (i : ℕ) (is : List ℕ) (x : List ℚ) (xs : Mat) :
    setRows m (i :: is) (x :: xs) = setRows (m.set i x) is xs := rfl

theorem selectRows_cons_zero (m : Mat) (idx : List ℕ) :
    selectRows m (0 :: idx) = m.getD 0 [] :: selectRows m idx := rfl

theorem selectRows_whereEq (m : Mat) (ca : List ℤ) (c : ℤ) (hlen : ca.length = m.length) :
    selectRows m (whereEq ca c) = gatherRows m ca c := by
  induction ca generalizing m with
  | nil => rw [gatherRows_nil_ca]; rfl
  | cons a as ih =>
    cases m with
    | nil => simp at hlen
    | cons r rs =>
      rw [whereEq_cons, gatherRows_cons]
      by_cases hac : a = c
      · rw [if_pos hac, if_pos hac, List.singleton_append, selectRows_cons_zero,
          List.getD_cons_zero, selectRows_map_succ, ih rs (by simpa using hlen)]
      · rw [if_neg hac, if_neg hac, List.nil_append, selectRows_map_succ,
          ih rs (by simpa using hlen)]

theorem setRows_map_succ (r : List ℚ) (rs : Mat) (idx : List ℕ) (z : Mat) :
    setRows (r :: rs) (idx.map Nat.succ) z = r :: setRows rs idx z := by
  induction idx generalizing r rs z with
  | nil => cases z <;> rfl
  | cons i is ih =>
    cases z with
    | nil => rfl
    | cons x xs =>
      rw [List.map_cons, setRows_cons_cons, List.set_cons_succ, ih, setRows_cons_cons]

theorem scatterRows_nil_z (m : Mat) (ca : List ℤ) (c : ℤ) : scatterRows m ca c [] = m := by
  induction ca generalizing m with
  | nil => exact scatterRows_nil_ca m c []
  | cons a as ih =>
    cases m with
    | nil => rfl
    | cons r rs =>
      rw [scatterRows_cons]
      by_cases hac : a = c
      · rw [if_pos hac, List.headD_nil, List.tail_nil, ih]
      · rw [if_neg hac, ih]

theorem setRows_whereEq (m : Mat) (ca : List ℤ) (c : ℤ) (z : Mat)
    (hlen : ca.length = m.length) :
    setRows m (whereEq ca c) z = scatterRows m ca c z := by
  induction ca generalizing m z with
  | nil => rw [scatterRows_nil_ca]; cases z <;> rfl
  | cons a as ih =>
    cases m with
    | nil => simp at hlen
    | cons r rs =>
      rw [whereEq_cons, scatterRows_cons]
      by_cases hac : a = c
      · rw [if_pos hac, if_pos hac, List.singleton_append]
        cases z with
        | nil =>
          rw [setRows_cons_nil, List.tail_nil, scatterRows_nil_z]
          rfl
        | cons x xs =>
          rw [setRows_cons_cons, List.set_cons_zero, List.headD_cons, List.tail_cons,
            setRows_map_succ, ih rs xs (by simpa using hlen)]
      · rw [if_neg hac, if_neg hac, List.nil_append, setRows_map_succ,
          ih rs z (by simpa using hlen)]

theorem dedup_const {ca : List ℤ} {c : ℤ} (hne : ca ≠ []) (h : ∀ x ∈ ca, x = c) :
    ca.dedup = [c] := by
  induction ca with
  | nil => exact absurd rfl hne
  | cons a as ih =>
    have hac : a = c := h a (by simp)
    cases as with
    | nil =>
      rw [List.dedup_cons_of_not_mem (by simp), List.dedup_nil, hac]
    | cons b bs =>
      have hmem : a ∈ b :: bs := by
        rw [hac, ← h b (by simp)]
        simp
      rw [List.dedup_cons_of_mem hmem]
      exact ih (by simp) (fun x hx => h x (by simp [hx]))

theorem gatherRows_all {m : Mat} {ca : List ℤ} {c : ℤ} (hlen : ca.length = m.length)
    (h : ∀ x ∈ ca, x = c) : gatherRows m ca c = m := by
  induction ca generalizing m with
  | nil =>
    have hm : m = [] := List.length_eq_zero.mp hlen.symm
    rw [hm, gatherRows_nil_ca]
  | cons a as ih =>
    cases m with
    | nil => simp at hlen
    | cons r rs =>
      rw [gatherRows_cons, if_pos (h a (by simp)),
        ih (by simpa using hlen) (fun x hx => h x (by simp [hx]))]

theorem scatterRows_all {m : Mat} {ca : List ℤ} {c : ℤ} {z : Mat}
    (hlen : ca.length = m.length) (hz : z.length = m.length) (h : ∀ x ∈ ca, x = c) :
    scatterRows m ca c z = z := by
  induction ca generalizing m z with
  | nil =>
    have hm : m = [] := List.length_eq_zero.mp hlen.symm
    subst hm
    rw [scatterRows_nil_ca]
    exact (List.length_eq_zero.mp hz).symm
  | cons a as ih =>
    cases m with
    | nil => simp at hlen
    | cons r rs =>
      cases z with
      | nil => simp at hz
      | cons x xs =>
        rw [scatterRows_cons, if_pos (h a (by simp)), List.headD_cons, List.tail_cons,
          ih (by simpa using hlen) (by simpa using hz) (fun y hy => h y (by simp [hy]))]

theorem width_eq {s : Mat} {w : ℕ} (hs : s ≠ []) (hw : ∀ r ∈ s, r.length = w) :
    width s = w := by
  cases s with
  | nil => exact absurd rfl hs
  | cons r rs => exact hw r (by simp)


theorem width_map_rows (s : Mat) (f : ℚ → ℚ) :
    width (s.map (fun r => r.map f)) = width s := by
  cases s <;> simp [width]

theorem width_zip_rows (s : Mat) (v : List ℚ) (f : ℚ → ℚ → ℚ) :
    width (s.map (fun r => r.zipWith f v)) = min (width s) v.length := by
  cases s <;> simp [width, List.length_zipWith]

theorem zscoreStep_vv (s : Mat) (μ σ : List ℚ) (hμ : width s = μ.length)
    (hσ : width s = σ.length) :
    zscoreStep s (.vector μ) (.vector σ) =
      Except.ok (s.map (fun r => (r.zipWith (fun x mj => x - mj) μ).zipWith
        (fun x sj => if sj = 0 then x else x / sj) σ)) := by
  have h1 : zscoreStep s (.vector μ) (.vector σ) =
      (if width s = μ.length then
        (if width (s.map (fun r => r.zipWith (fun x mj => x - mj) μ)) ≠ σ.length
          then Except.error ZErr.stdShape
          else Except.ok ((s.map (fun r => r.zipWith (fun x mj => x - mj) μ)).map
            (fun r => r.zipWith (fun x sj => if sj = 0 then x else x / sj) σ)))
      else Except.error ZErr.meanShape) := rfl
  rw [h1, if_pos hμ,
    if_neg (by rw [width_zip_rows, ← hμ, min_self, ← hσ]; exact fun hne => hne rfl),
    List.map_map]
  rfl

theorem zscoreStep_sv (s : Mat) (c : ℚ) (σ : List ℚ) (hσ : width s = σ.length) :
    zscoreStep s (.scalar c) (.vector σ) =
      Except.ok (s.map (fun r => (r.map (fun x => x - c)).zipWith
        (fun x sj => if sj = 0 then x else x / sj) σ)) := by
  have h1 : zscoreStep s (.scalar c) (.vector σ) =
      (if width (s.map (fun r => r.map (fun x => x - c))) ≠ σ.length
        then Except.error ZErr.stdShape
        else Except.ok ((s.map (fun r => r.map (fun x => x - c))).map
          (fun r => r.zipWith (fun x sj => if sj = 0 then x else x / sj) σ))) := rfl
  rw [h1, if_neg (by rw [width_map_rows, ← hσ]; exact fun hne => hne rfl), List.map_map]
  rfl

theorem zscoreStep_ss (s : Mat) (c k : ℚ) :
    zscoreStep s (.scalar c) (.scalar k) =
      (if k = 0 then Except.ok ((s.map (fun r => r.map (fun x => x - c))).map
          (fun r => r.map (fun _ => (0 : ℚ))))
        else Except.ok ((s.map (fun r => r.map (fun x => x - c))).map
          (fun r => r.map (fun x => x / k)))) := rfl

theorem zscoreStep_vs (s : Mat) (μ : List ℚ) (k : ℚ) (hμ : width s = μ.length) :
    zscoreStep s (.vector μ) (.scalar k) =
      (if k = 0 then Except.ok ((s.map (fun r => r.zipWith (fun x mj => x - mj) μ)).map
          (fun r => r.map (fun _ => (0 : ℚ))))
        else Except.ok ((s.map (fun r => r.zipWith (fun x mj => x - mj) μ)).map
          (fun r => r.map (fun x => x / k)))) := by
  have h1 : zscoreStep s (.vector μ) (.scalar k) =
      (if width s = μ.length then
        (if k = 0 then Except.ok ((s.map (fun r => r.zipWith (fun x mj => x - mj) μ)).map
            (fun r => r.map (fun _ => (0 : ℚ))))
          else Except.ok ((s.map (fun r => r.zipWith (fun x mj => x - mj) μ)).map
            (fun r => r.map (fun x => x / k))))
      else Except.error ZErr.meanShape) := rfl
  rw [h1, if_pos hμ]

theorem zscoreStep_ok {s : Mat} {w : ℕ} (hs : s ≠ []) (hw : ∀ r ∈ s, r.length = w)
    {mean std : MP} (hm : fitsW mean w) (hstd : fitsW std w) :
    ∃ z, zscoreStep s mean std = .ok z ∧ z.length = s.length ∧ ∀ r ∈ z, r.length = w := by
  have hwid : width s = w := width_eq hs hw
  have rowlen_map : ∀ (f : ℚ → ℚ) (t : Mat), (∀ r ∈ t, r.length = w) →
      ∀ r ∈ t.map (fun r => r.map f), r.length = w := by
    intro f t ht r hr
    obtain ⟨r₀, hr₀, rfl⟩ := List.mem_map.mp hr
    simpa using ht r₀ hr₀
  have rowlen_zip : ∀ (f : ℚ → ℚ → ℚ) (v : List ℚ), v.length = w → ∀ (t : Mat),
      (∀ r ∈ t, r.length = w) → ∀ r ∈ t.map (fun r => r.zipWith f v), r.length = w := by
    intro f v hv t ht r hr
    obtain ⟨r₀, hr₀, rfl⟩ := List.mem_map.mp hr
    rw [List.length_zipWith, ht r₀ hr₀, hv]
    exact min_self w
  cases mean with
  | scalar c =>
    cases std with
    | scalar k =>
      rw [zscoreStep_ss]
      by_cases hk : k = 0
      · rw [if_pos hk]
        exact ⟨_, rfl, by simp, rowlen_map _ _ (rowlen_map _ _ hw)⟩
      · rw [if_neg hk]
        exact ⟨_, rfl, by simp, rowlen_map _ _ (rowlen_map _ _ hw)⟩
    | vector σ =>
      rw [zscoreStep_sv s c σ (by rw [hwid]; exact hstd.symm)]
      refine ⟨_, rfl, by simp, ?_⟩
      intro r hr
      obtain ⟨r₀, hr₀, rfl⟩ := List.mem_map.mp hr
      rw [List.length_zipWith, List.length_map, hw r₀ hr₀, hstd]
      exact min_self w
  | vector μ =>
    have hμ : width s = μ.length := by rw [hwid]; exact hm.symm
    cases std with
    | scalar k =>
      rw [zscoreStep_vs s μ k hμ]
      by_cases hk : k = 0
      · rw [if_pos hk]
        exact ⟨_, rfl, by simp, rowlen_map _ _ (rowlen_zip _ _ hm _ hw)⟩
      · rw [if_neg hk]
        exact ⟨_, rfl, by simp, rowlen_map _ _ (rowlen_zip _ _ hm _ hw)⟩
    | vector σ =>
      rw [zscoreStep_vv s μ σ hμ (by rw [hwid]; exact hstd.symm)]
      refine ⟨_, rfl, by simp, ?_⟩
      intro r hr
      obtain ⟨r₀, hr₀, rfl⟩ := List.mem_map.mp hr
      rw [List.length_zipWith, List.length_zipWith, hw r₀ hr₀, hm, hstd, min_self]
      exact min_self w

theorem readH_alloc_fresh (h : Heap) (b : Buf) : readH (h ++ [b]) h.length = b := by
  unfold readH
  rw [List.getD_eq_getElem?_getD, List.getElem?_append]
  simp

theorem zscore_entry {M : Mat} {w : ℕ} (μ σ : List ℚ)
    (hw : ∀ r ∈ M, r.length = w) (hμlen : μ.length = w) (hσlen : σ.length = w)
    (hσpos : ∀ x ∈ σ, 0 < x) :
    ∀ i < M.length, ∀ j < w,
      (((M.map (fun r => (r.zipWith (fun x mj => x - mj) μ).zipWith
          (fun x sj => if sj = 0 then x else x / sj) σ)).getD i []).getD j 0) =
        ((M.getD i []).getD j 0 - μ.getD j 0) / σ.getD j 0 := by
  intro i hi j hj
  rw [getD_map_pos _ _ hi _ []]
  have hrow : (M.getD i []).length = w := hw _ (by
    rw [List.getD_eq_getElem _ _ hi]
    exact List.getElem_mem hi)
  have hj1 : j < (List.zipWith (fun x mj => x - mj) (M.getD i []) μ).length := by
    rw [List.length_zipWith, hrow, hμlen, min_self]
    exact hj
  rw [getD_zipWith_pos _ _ _ hj1 (by rw [hσlen]; exact hj) _ 0 0,
    getD_zipWith_pos _ _ _ (by rw [hrow]; exact hj) (by rw [hμlen]; exact hj) _ 0 0]
  have hσj : σ.getD j 0 ∈ σ := by
    rw [List.getD_eq_getElem _ _ (by rw [hσlen]; exact hj)]
    exact List.getElem_mem _
  rw [if_neg (ne_of_gt (hσpos _ hσj))]

/-! ### Evaluation lemmas for the forward path -/

theorem upcast_float {zm : ZScoreMapper} {hm : Heap × Dataset} {M : Mat}
    (hread : readH hm.1 hm.2.samples = ⟨.float, M⟩) : upcast zm hm = hm := by
  unfold upcast
  rw [hread]
  exact rfl

theorem upcast_int {zm : ZScoreMapper} {hm : Heap × Dataset} {M : Mat}
    (hread : readH hm.1 hm.2.samples = ⟨.int, M⟩) :
    upcast zm hm = (hm.1 ++ [⟨zm.dtype, M⟩], {hm.2 with samples := hm.1.length}) := by
  unfold upcast
  rw [hread]
  exact rfl

theorem applyParams_global {zm : ZScoreMapper} {ds : Dataset} {caOpt : Option (List ℤ)}
    {pd : ParamsDict} {hm2 : Heap × Dataset} {p : MeanStd} {dt2 : DType} {M : Mat}
    (hall : pdLookup pd .all = some p)
    (hread : readH hm2.1 hm2.2.samples = ⟨dt2, M⟩) :
    applyParams zm ds caOpt pd hm2 =
      match zscoreStep M p.1 p.2 with
      | .ok z => .ok (writeH hm2.1 hm2.2.samples ⟨dt2, z⟩, hm2.2,
          if zm.secret_inplace then hm2.2 else ds)
      | .error e => .error e := by
  unfold applyParams
  rw [hall, hread]
  show Except.bind (zscoreStep M p.1 p.2) (fun z =>
    Except.ok (writeH hm2.1 hm2.2.samples ⟨dt2, z⟩, hm2.2,
      if zm.secret_inplace then hm2.2 else ds)) = _
  cases zscoreStep M p.1 p.2 <;> rfl

theorem applyParams_chunked {zm : ZScoreMapper} {ds : Dataset} {ca : List ℤ}
    {pd : ParamsDict} {hm2 : Heap × Dataset} {dt2 : DType} {M : Mat}
    (hall : pdLookup pd .all = none)
    (hread : readH hm2.1 hm2.2.samples = ⟨dt2, M⟩) :
    applyParams zm ds (some ca) pd hm2 =
      match chunkLoop pd ca ca.dedup M with
      | .ok z => .ok (writeH hm2.1 hm2.2.samples ⟨dt2, z⟩, hm2.2,
          if zm.secret_inplace then hm2.2 else ds)
      | .error e => .error e := by
  unfold applyParams
  rw [hall, hread]
  show Except.bind (chunkLoop pd ca ca.dedup M) (fun z =>
    Except.ok (writeH hm2.1 hm2.2.samples ⟨dt2, z⟩, hm2.2,
      if zm.secret_inplace then hm2.2 else ds)) = _
  cases chunkLoop pd ca ca.dedup M <;> rfl

theorem forwardDataset_nochunks {zm : ZScoreMapper} {h : Heap} {ds : Dataset}
    {pd : ParamsDict} (hch : zm.chunks = none) (hpd : zm.params_dict = some pd) :
    forwardDataset zm h ds =
      applyParams zm ds none pd
        (upcast zm (if zm.secret_inplace then (h, ds) else Dataset.shallowCopy h ds)) := by
  unfold forwardDataset
  rw [hch, hpd]
  exact rfl

theorem forwardDataset_chunks {zm : ZScoreMapper} {h : Heap} {ds : Dataset} {nm : String}
    {ca : List ℤ} {pd : ParamsDict} (hch : zm.chunks = some nm)
    (hsa : saLookup ds nm = some ca) (hca : ca ≠ [])
    (hpd : zm.params_dict = some pd) :
    forwardDataset zm h ds =
      applyParams zm ds (some ca) pd
        (upcast zm (if zm.secret_inplace then (h, ds) else Dataset.shallowCopy h ds)) := by
  unfold forwardDataset
  simp only [hch, hsa, hpd]
  rw [if_neg (by simp [List.isEmpty_iff, hca])]
  exact rfl

theorem forwardDataset_untrained_nochunks {zm : ZScoreMapper} {h : Heap} {ds : Dataset}
    (hch : zm.chunks = none) (hpd : zm.params_dict = none) :
    forwardDataset zm h ds = .error .notTrained := by
  unfold forwardDataset
  rw [hch, hpd]
  exact rfl

theorem forwardDataset_untrained_chunks {zm : ZScoreMapper} {h : Heap} {ds : Dataset}
    {nm : String} {ca : List ℤ} (hch : zm.chunks = some nm)
    (hsa : saLookup ds nm = some ca) (hca : ca ≠ []) (hpd : zm.params_dict = none) :
    forwardDataset zm h ds = .error .notTrained := by
  unfold forwardDataset
  simp only [hch, hsa, hpd]
  rw [if_neg (by simp [List.isEmpty_iff, hca])]
  exact rfl

/-! ### Claim theorems -/

/-- C1: for a trained mapper with no grouping and stored global parameters
(mean vector equal to the column means of the data matrix M, std vector with
every entry positive), applying it to a dataset holding M succeeds and returns
a matrix whose entry (i, j) is (M[i][j] - mu[j]) / sigma[j]. -/
theorem C1_global_correctness
    (h : Heap) (ds : Dataset) (zm : ZScoreMapper)
    (M : Mat) (w : ℕ) (μ σ : List ℚ) (dt : DType)
    (hch : zm.chunks = none)
    (hpd : zm.params_dict = some [(.all, (.vector μ, .vector σ))])
    (hread : readH h ds.samples = ⟨dt, M⟩)
    (hvalid : ds.samples < h.length)
    (hM : M ≠ [])
    (hw : ∀ r ∈ M, r.length = w)
    (hμ : μ = colMeans M)
    (hσlen : σ.length = w)
    (hσpos : ∀ x ∈ σ, 0 < x) :
    ∃ h2 out dsA, forwardDataset zm h ds = .ok (h2, out, dsA) ∧
      ∀ i < M.length, ∀ j < w,
        ((readH h2 out.samples).data.getD i []).getD j 0 =
          ((M.getD i []).getD j 0 - μ.getD j 0) / σ.getD j 0 := by
  have hwM : width M = w := width_eq hM hw
  have hμlen : μ.length = w := by
    rw [hμ]
    unfold colMeans
    rw [List.length_map, List.length_range, hwM]
  have hzs := zscoreStep_vv M μ σ (by rw [hwM, hμlen]) (by rw [hwM, hσlen])
  have hall : pdLookup [(.all, (.vector μ, .vector σ))] .all
      = some (.vector μ, .vector σ) := rfl
  have hentry := zscore_entry μ σ hw hμlen hσlen hσpos
  obtain ⟨ch, pz, pe, dty, pdz, ip⟩ := zm
  dsimp only at hch hpd
  subst hch hpd
  rw [forwardDataset_nochunks rfl rfl]
  cases ip with
  | false =>
    rw [if_neg (by simp : ¬(false = true))]
    have hsc : Dataset.shallowCopy h ds = (h ++ [⟨dt, M⟩], {ds with samples := h.length}) := by
      unfold Dataset.shallowCopy allocH
      rw [hread]
    rw [hsc]
    cases dt with
    | float =>
      rw [upcast_float (by exact readH_alloc_fresh h _)]
      rw [applyParams_global hall (by exact readH_alloc_fresh h _)]
      rw [hzs]
      refine ⟨_, _, _, rfl, ?_⟩
      intro i hi j hj
      rw [show ({ds with samples := h.length} : Dataset).samples = h.length from rfl,
        readH_writeH_self _ _ (by simp)]
      exact hentry i hi j hj
    | int =>
      rw [upcast_int (by exact readH_alloc_fresh h _)]
      rw [applyParams_global hall (by exact readH_alloc_fresh _ _)]
      rw [hzs]
      refine ⟨_, _, _, rfl, ?_⟩
      intro i hi j hj
      rw [readH_writeH_self _ _ (by simp)]
      exact hentry i hi j hj
  | true =>
    rw [if_pos rfl]
    cases dt with
    | float =>
      rw [upcast_float (by exact hread)]
      rw [applyParams_global hall (by exact hread)]
      rw [hzs]
      refine ⟨_, _, _, rfl, ?_⟩
      intro i hi j hj
      rw [readH_writeH_self _ _ hvalid]
      exact hentry i hi j hj
    | int =>
      rw [upcast_int (by exact hread)]
      rw [applyParams_global hall (by exact readH_alloc_fresh _ _)]
      rw [hzs]
      refine ⟨_, _, _, rfl, ?_⟩
      intro i hi j hj
      rw [readH_writeH_self _ _ (by simp)]
      exact hentry i hi j hj

/-- C1 witness: the hypotheses of `C1_global_correctness` hold at a concrete
2-by-2 matrix, and the theorem yields the elementwise (M - mu) / sigma form. -/
theorem C1_global_correctness_witness :
    (([2, 4] : List ℚ) = colMeans [[1, 3], [3, 5]] ∧ (∀ x ∈ ([1, 2] : List ℚ), 0 < x)) ∧
    (∃ h2 out dsA, forwardDataset c1zm c1heap c1ds = .ok (h2, out, dsA) ∧
      ∀ i < ([[1, 3], [3, 5]] : Mat).length, ∀ j < 2,
        ((readH h2 out.samples).data.getD i []).getD j 0 =
          ((([[1, 3], [3, 5]] : Mat).getD i []).getD j 0 - ([2, 4] : List ℚ).getD j 0) /
            ([1, 2] : List ℚ).getD j 0) :=
  ⟨by decide,
    C1_global_correctness c1heap c1ds c1zm [[1, 3], [3, 5]] 2 [2, 4] [1, 2] .float
      rfl rfl (by decide) (by decide) (by decide) (by decide) (by decide) (by decide)
      (by decide)⟩

theorem forwardData_chunksOnPlain {zm : ZScoreMapper} {nm : String}
    (hch : zm.chunks = some nm) (h : Heap) (r : Ref) :
    forwardData zm h r = .error .chunksOnPlain := by
  unfold forwardData
  rw [hch, if_pos (by simp)]

theorem forwardData_paramEstOnPlain {zm : ZScoreMapper} {pe : String × List ℤ}
    (hch : zm.chunks = none) (hpe : zm.param_est = some pe) (h : Heap) (r : Ref) :
    forwardData zm h r = .error .paramEstOnPlain := by
  unfold forwardData
  rw [hch, if_neg (by simp), hpe, if_pos (by simp)]

theorem forwardData_untrained {zm : ZScoreMapper}
    (hch : zm.chunks = none) (hpe : zm.param_est = none) (hpd : zm.params_dict = none)
    (h : Heap) (r : Ref) : forwardData zm h r = .error .notTrained := by
  unfold forwardData
  rw [hch, if_neg (by simp), hpe, if_neg (by simp), hpd]

theorem forwardData_eval {zm : ZScoreMapper} {pd : ParamsDict} {p : MeanStd}
    {dt : DType} {M : Mat}
    (hch : zm.chunks = none) (hpe : zm.param_est = none) (hpd : zm.params_dict = some pd)
    (hall : pdLookup pd .all = some p) (h : Heap) (r : Ref)
    (hb : readH h r = ⟨dt, M⟩) :
    forwardData zm h r =
      match zscoreStep M p.1 p.2 with
      | .ok z => .ok (h ++ [⟨if dt = .int then zm.dtype else dt, z⟩], h.length)
      | .error e => .error e := by
  unfold forwardData
  rw [hch, if_neg (by simp), hpe, if_neg (by simp)]
  simp only [hpd, hall, hb]
  show Except.bind (zscoreStep M p.1 p.2) (fun z =>
    Except.ok ((allocH h ⟨if dt = .int then zm.dtype else dt, z⟩).1,
      (allocH h ⟨if dt = .int then zm.dtype else dt, z⟩).2)) = _
  cases zscoreStep M p.1 p.2 <;> rfl

theorem forwardDataset_attrMissing {zm : ZScoreMapper} {ds : Dataset} {nm : String}
    (hch : zm.chunks = some nm) (hsa : saLookup ds nm = none) (h : Heap) :
    forwardDataset zm h ds = .error .attrMissing := by
  unfold forwardDataset
  simp only [hch, hsa]
  exact rfl

theorem forwardDataset_emptyData {zm : ZScoreMapper} {ds : Dataset} {nm : String}
    (hch : zm.chunks = some nm) (hsa : saLookup ds nm = some []) (h : Heap) :
    forwardDataset zm h ds = .error .emptyData := by
  unfold forwardDataset
  simp only [hch, hsa]
  rw [if_pos (by simp)]
  exact rfl

theorem applyParams_ok_shape {zm : ZScoreMapper} {ds : Dataset} {caOpt : Option (List ℤ)}
    {pd : ParamsDict} {hm2 : Heap × Dataset} {h2 : Heap} {out dsA : Dataset}
    (hok : applyParams zm ds caOpt pd hm2 = .ok (h2, out, dsA)) :
    ∃ z dt2, h2 = writeH hm2.1 hm2.2.samples ⟨dt2, z⟩ ∧ out = hm2.2 ∧
      dsA = (if zm.secret_inplace then hm2.2 else ds) := by
  cases hb : readH hm2.1 hm2.2.samples with
  | mk dt2 M2 =>
    cases hall : pdLookup pd .all with
    | some p =>
      rw [applyParams_global hall hb] at hok
      cases hz : zscoreStep M2 p.1 p.2 with
      | error e =>
        rw [hz] at hok
        simp at hok
      | ok z =>
        rw [hz] at hok
        have hok2 : (Except.ok (writeH hm2.1 hm2.2.samples ⟨dt2, z⟩, hm2.2,
            if zm.secret_inplace then hm2.2 else ds) : Except ZErr _)
            = Except.ok (h2, out, dsA) := hok
        simp only [Except.ok.injEq, Prod.mk.injEq] at hok2
        exact ⟨z, dt2, hok2.1.symm, hok2.2.1.symm, hok2.2.2.symm⟩
    | none =>
      cases caOpt with
      | none =>
        unfold applyParams at hok
        rw [hall] at hok
        simp at hok
      | some ca =>
        rw [applyParams_chunked hall hb] at hok
        cases hz : chunkLoop pd ca ca.dedup M2 with
        | error e =>
          rw [hz] at hok
          simp at hok
        | ok z =>
          rw [hz] at hok
          have hok2 : (Except.ok (writeH hm2.1 hm2.2.samples ⟨dt2, z⟩, hm2.2,
              if zm.secret_inplace then hm2.2 else ds) : Except ZErr _)
              = Except.ok (h2, out, dsA) := hok
          simp only [Except.ok.injEq, Prod.mk.injEq] at hok2
          exact ⟨z, dt2, hok2.1.symm, hok2.2.1.symm, hok2.2.2.symm⟩

theorem upcast_shape (zm : ZScoreMapper) (h1 : Heap) (d1 : Dataset) :
    ∃ tail : List Buf, (upcast zm (h1, d1)).1 = h1 ++ tail ∧
      ((upcast zm (h1, d1)).2.samples = d1.samples ∨
        (upcast zm (h1, d1)).2.samples = h1.length) ∧
      (upcast zm (h1, d1)).2.sa = d1.sa := by
  unfold upcast
  by_cases hdt : (readH h1 d1.samples).dtype = .int
  · rw [if_pos hdt]
    exact ⟨[⟨zm.dtype, (readH h1 d1.samples).data⟩], rfl, Or.inr rfl, rfl⟩
  · rw [if_neg hdt]
    exact ⟨[], by simp, Or.inl rfl, rfl⟩

theorem forwardDataset_ok_shape {zm : ZScoreMapper} {h : Heap} {ds : Dataset}
    {h2 : Heap} {out dsA : Dataset}
    (hok : forwardDataset zm h ds = .ok (h2, out, dsA)) :
    ∃ z dt2, h2 = writeH (upcast zm (if zm.secret_inplace then (h, ds)
          else Dataset.shallowCopy h ds)).1
        (upcast zm (if zm.secret_inplace then (h, ds)
          else Dataset.shallowCopy h ds)).2.samples ⟨dt2, z⟩ ∧
      out = (upcast zm (if zm.secret_inplace then (h, ds)
          else Dataset.shallowCopy h ds)).2 ∧
      dsA = (if zm.secret_inplace then out else ds) := by
  obtain ⟨ch, pz, pe, dty, pdz, ip⟩ := zm
  cases ch with
  | none =>
    cases pdz with
    | none => rw [forwardDataset_untrained_nochunks rfl rfl] at hok; simp at hok
    | some pd =>
      rw [forwardDataset_nochunks rfl rfl] at hok
      obtain ⟨z, dt2, h1, h2', h3⟩ := applyParams_ok_shape hok
      exact ⟨z, dt2, h1, h2', by rw [h3, h2']⟩
  | some nm =>
    cases hsa : saLookup ds nm with
    | none =>
      rw [forwardDataset_attrMissing rfl hsa] at hok
      simp at hok
    | some ca =>
      by_cases hca : ca = []
      · rw [hca] at hsa
        rw [forwardDataset_emptyData rfl hsa] at hok
        simp at hok
      · cases pdz with
        | none => rw [forwardDataset_untrained_chunks rfl hsa hca rfl] at hok; simp at hok
        | some pd =>
          rw [forwardDataset_chunks rfl hsa hca rfl] at hok
          obtain ⟨z, dt2, h1, h2', h3⟩ := applyParams_ok_shape hok
          exact ⟨z, dt2, h1, h2', by rw [h3, h2']⟩

theorem forwardData_keyAllMissing {zm : ZScoreMapper} {pd : ParamsDict}
    (hch : zm.chunks = none) (hpe : zm.param_est = none) (hpd : zm.params_dict = some pd)
    (hall : pdLookup pd .all = none) (h : Heap) (r : Ref) :
    forwardData zm h r = .error .keyAllMissing := by
  unfold forwardData
  rw [hch, if_neg (by simp), hpe, if_neg (by simp)]
  simp only [hpd, hall]

/-- C8: the plain-ndarray path operates on a private copy: whenever
`_forward_data` succeeds, the caller's buffer is unchanged and the returned
array is a fresh allocation (regardless of the in-place flag). -/
theorem C8_plain_data_private_copy
    (zm : ZScoreMapper) (h : Heap) (r : Ref) (h2 : Heap) (r2 : Ref)
    (hvalid : r < h.length)
    (hok : forwardData zm h r = .ok (h2, r2)) :
    readH h2 r = readH h r ∧ r2 ≠ r ∧ r2 = h.length := by
  obtain ⟨ch, pz, pe, dty, pdz, ip⟩ := zm
  cases ch with
  | some nm => rw [forwardData_chunksOnPlain rfl] at hok; simp at hok
  | none =>
    cases pe with
    | some p0 => rw [forwardData_paramEstOnPlain rfl rfl] at hok; simp at hok
    | none =>
      cases pdz with
      | none => rw [forwardData_untrained rfl rfl rfl] at hok; simp at hok
      | some pd =>
        cases hb : readH h r with
        | mk dt M =>
          cases hall : pdLookup pd .all with
          | none => rw [forwardData_keyAllMissing rfl rfl rfl hall] at hok; simp at hok
          | some p =>
            rw [forwardData_eval rfl rfl rfl hall h r hb] at hok
            cases hz : zscoreStep M p.1 p.2 with
            | error e => rw [hz] at hok; simp at hok
            | ok z =>
              rw [hz] at hok
              have hok2 : (Except.ok (h ++ [⟨if dt = .int then dty else dt, z⟩], h.length) :
                  Except ZErr (Heap × Ref)) = .ok (h2, r2) := hok
              simp only [Except.ok.injEq, Prod.mk.injEq] at hok2
              obtain ⟨hh2, hr2⟩ := hok2
              subst hh2
              refine ⟨by rw [readH_append h _ hvalid, hb], ?_, hr2.symm⟩
              have hlt : r < r2 := hr2 ▸ hvalid
              exact ne_of_gt hlt

/-- C8 witness: a concrete trained mapper with the in-place flag set, applied
to a one-element float buffer. -/
theorem C8_plain_data_private_copy_witness :
    ((0 : Ref) < ([⟨.float, [[3]]⟩] : Heap).length ∧ c8zm.secret_inplace = true ∧
      forwardData c8zm [⟨.float, [[3]]⟩] 0 = .ok ([⟨.float, [[3]]⟩, ⟨.float, [[3]]⟩], 1)) ∧
    (readH [⟨.float, [[3]]⟩, ⟨.float, [[3]]⟩] 0 = readH [⟨.float, [[3]]⟩] 0 ∧
      (1 : Ref) ≠ 0 ∧ (1 : Ref) = ([⟨.float, [[3]]⟩] : Heap).length) :=
  ⟨by decide,
    C8_plain_data_private_copy c8zm [⟨.float, [[3]]⟩] 0 _ 1 (by decide) (by decide)⟩

/-- C5: in copy mode (in-place flag off), a successful dataset apply leaves the
input collection's buffer untouched, returns a dataset with fresh matrix
storage sharing the attribute metadata, and leaves the caller's dataset object
unchanged — for integer as well as floating-point data. -/
theorem C5_copy_mode_frame
    (zm : ZScoreMapper) (h : Heap) (ds : Dataset) (h2 : Heap) (out dsA : Dataset)
    (hip : zm.secret_inplace = false)
    (hvalid : ds.samples < h.length)
    (hok : forwardDataset zm h ds = .ok (h2, out, dsA)) :
    readH h2 ds.samples = readH h ds.samples ∧ out.samples ≠ ds.samples ∧
      out.sa = ds.sa ∧ dsA = ds := by
  obtain ⟨z, dt2, hh2, hout, hdsA⟩ := forwardDataset_ok_shape hok
  rw [hip] at hh2 hout hdsA
  rw [if_neg (by simp : ¬(false = true))] at hh2 hout hdsA
  have hsc : Dataset.shallowCopy h ds
      = (h ++ [readH h ds.samples], {ds with samples := h.length}) := rfl
  rw [hsc] at hh2 hout
  obtain ⟨tail, hU1, hUs, hUsa⟩ := upcast_shape zm (h ++ [readH h ds.samples])
    {ds with samples := h.length}
  have hsam : out.samples = h.length ∨ out.samples = h.length + 1 := by
    rw [hout]
    rcases hUs with hs | hs
    · left
      rw [hs]
    · right
      rw [hs]
      simp
  have hne : out.samples ≠ ds.samples := by
    rcases hsam with h1 | h1
    · rw [h1]
      exact ne_of_gt hvalid
    · rw [h1]
      exact ne_of_gt (lt_trans hvalid (Nat.lt_succ_self _))
  refine ⟨?_, hne, ?_, hdsA⟩
  · rw [hh2, ← hout, readH_writeH_ne _ _ hne, hU1, List.append_assoc]
    exact readH_append h _ hvalid
  · rw [hout, hUsa]

/-- C5 witness: integer-typed input in copy mode; the original integer buffer
is untouched, the output dataset points at fresh float storage. -/
theorem C5_copy_mode_frame_witness :
    (c5zm.secret_inplace = false ∧ (0 : Ref) < c5heap.length ∧
      forwardDataset c5zm c5heap ⟨0, []⟩ = .ok (c5heap2, ⟨2, []⟩, ⟨0, []⟩)) ∧
    (readH c5heap2 (0 : Ref) = readH c5heap 0 ∧ (⟨2, []⟩ : Dataset).samples ≠ (⟨0, []⟩ : Dataset).samples ∧
      (⟨2, []⟩ : Dataset).sa = (⟨0, []⟩ : Dataset).sa ∧ (⟨0, []⟩ : Dataset) = ⟨0, []⟩) :=
  ⟨by decide,
    C5_copy_mode_frame c5zm c5heap ⟨0, []⟩ c5heap2 ⟨2, []⟩ ⟨0, []⟩ (by decide) (by decide)
      (by decide)⟩

/-- C10: the grouping attribute defaults to "chunks" (not none), so a
default-constructed mapper refuses plain arrays with the unsupported-bare-matrix
error — before and after a successful fit; explicitly disabling grouping is
required for plain arrays. -/
theorem C10_default_chunks_rejects_plain
    (sq : ℚ → ℚ) (hT : Heap) (dsT : Dataset) (zm2 : ZScoreMapper)
    (htrain : defaultMapper.train sq hT dsT = .ok zm2) :
    defaultMapper.chunks = some "chunks" ∧
    (∀ h r, forwardData zm2 h r = .error .chunksOnPlain) ∧
    (∀ h r, forwardData defaultMapper h r = .error .chunksOnPlain) := by
  refine ⟨rfl, ?_, fun h r => forwardData_chunksOnPlain rfl h r⟩
  intro h r
  unfold ZScoreMapper.train at htrain
  cases htp : trainParams sq defaultMapper hT dsT with
  | error e => rw [htp] at htrain; simp [Except.map] at htrain
  | ok pd =>
    rw [htp] at htrain
    have htrain2 : (Except.ok {defaultMapper with params_dict := some pd} :
        Except ZErr ZScoreMapper) = .ok zm2 := htrain
    simp only [Except.ok.injEq] at htrain2
    exact forwardData_chunksOnPlain (by rw [← htrain2]; rfl) h r

/-- C10 witness: a concrete successful fit of a default-constructed mapper,
after which the plain-array path still raises the unsupported error. -/
theorem C10_default_chunks_rejects_plain_witness :
    (defaultMapper.train ratSqrt c10heapT c10dsT = .ok c10zm2) ∧
    (defaultMapper.chunks = some "chunks" ∧
      (∀ h r, forwardData c10zm2 h r = .error .chunksOnPlain) ∧
      (∀ h r, forwardData defaultMapper h r = .error .chunksOnPlain)) :=
  ⟨by decide, C10_default_chunks_rejects_plain ratSqrt c10heapT c10dsT c10zm2 (by decide)⟩

/-- C3 counterexample: an untrained default-constructed mapper (no fixed
parameters) applied to a bare matrix fails with the unsupported-bare-matrix
error, not with the untrained error the claim demands. -/
theorem C3_counterexample_bare_matrix_error :
    defaultMapper.params = none ∧ defaultMapper.params_dict = none ∧
    forwardData defaultMapper [⟨.float, [[1], [2]]⟩] 0 = .error .chunksOnPlain ∧
    ZErr.chunksOnPlain ≠ ZErr.notTrained := by decide

/-- C3 amended: an untrained mapper fails before producing output: on a dataset
it raises the untrained error (whenever the warning probe's attribute lookup is
resolvable); on a bare matrix it raises the untrained error when neither
grouping nor subset estimation is configured, the unsupported-bare-matrix chunk
error when grouping is configured, and the unsupported-bare-matrix selector
error when grouping is disabled but a selector is configured. -/
theorem C3_untrained_failure
    (zm : ZScoreMapper) (h : Heap) (hun : zm.params_dict = none) :
    (∀ ds, zm.chunks = none → forwardDataset zm h ds = .error .notTrained) ∧
    (∀ ds nm ca, zm.chunks = some nm → saLookup ds nm = some ca → ca ≠ [] →
      forwardDataset zm h ds = .error .notTrained) ∧
    (∀ r, zm.chunks = none → zm.param_est = none →
      forwardData zm h r = .error .notTrained) ∧
    (∀ r nm, zm.chunks = some nm → forwardData zm h r = .error .chunksOnPlain) ∧
    (∀ r pe, zm.chunks = none → zm.param_est = some pe →
      forwardData zm h r = .error .paramEstOnPlain) := by
  refine ⟨?_, ?_, ?_, ?_, ?_⟩
  · intro ds hch
    exact forwardDataset_untrained_nochunks hch hun
  · intro ds nm ca hch hsa hca
    exact forwardDataset_untrained_chunks hch hsa hca hun
  · intro r hch hpe
    exact forwardData_untrained hch hpe hun h r
  · intro r nm hch
    exact forwardData_chunksOnPlain hch h r
  · intro r pe hch hpe
    exact forwardData_paramEstOnPlain hch hpe h r

/-- C3 witness: the amended statement applied to the untrained default mapper. -/
theorem C3_untrained_failure_witness :
    defaultMapper.params_dict = none ∧
    ((∀ ds, defaultMapper.chunks = none →
        forwardDataset defaultMapper [] ds = .error .notTrained) ∧
      (∀ ds nm ca, defaultMapper.chunks = some nm → saLookup ds nm = some ca → ca ≠ [] →
        forwardDataset defaultMapper [] ds = .error .notTrained) ∧
      (∀ r, defaultMapper.chunks = none → defaultMapper.param_est = none →
        forwardData defaultMapper [] r = .error .notTrained) ∧
      (∀ r nm, defaultMapper.chunks = some nm →
        forwardData defaultMapper [] r = .error .chunksOnPlain) ∧
      (∀ r pe, defaultMapper.chunks = none → defaultMapper.param_est = some pe →
        forwardData defaultMapper [] r = .error .paramEstOnPlain)) :=
  ⟨by decide, C3_untrained_failure defaultMapper [] (by decide)⟩

theorem trainParams_global {sq : ℚ → ℚ} {zm : ZScoreMapper} {h : Heap} {ds : Dataset}
    {M : Mat} {dtb : DType}
    (hparams : zm.params = none) (hpe : zm.param_est = none) (hch : zm.chunks = none)
    (hread : readH h ds.samples = ⟨dtb, M⟩) :
    trainParams sq zm h ds = .ok [(.all, computeParams sq M)] := by
  unfold trainParams
  simp only [hparams, hpe, hch, hread]
  exact rfl

theorem getD_colMeans {M : Mat} {j : ℕ} (hj : j < width M) :
    (colMeans M).getD j 0 = colMean M j := by
  unfold colMeans
  rw [getD_map_pos _ _ (by simpa using hj) _ 0, getD_range_pos hj]

theorem getD_colStds {sq : ℚ → ℚ} {M : Mat} {j : ℕ} (hj : j < width M) :
    (colStds sq M).getD j 0 = sq (colVar M j) := by
  unfold colStds
  rw [getD_map_pos _ _ (by simpa using hj) _ 0, getD_range_pos hj]

theorem length_colMeans (M : Mat) : (colMeans M).length = width M := by
  unfold colMeans
  rw [List.length_map, List.length_range]

theorem length_colStds (sq : ℚ → ℚ) (M : Mat) : (colStds sq M).length = width M := by
  unfold colStds
  rw [List.length_map, List.length_range]

theorem zscore_entry_zero_col {sq : ℚ → ℚ} {M : Mat} {w j : ℕ} {cst : ℚ}
    (hsq0 : sq 0 = 0) (hM : M ≠ []) (hw : ∀ r ∈ M, r.length = w) (hj : j < w)
    (hconst : ∀ r ∈ M, r.getD j 0 = cst) :
    ∀ i < M.length,
      (((M.map (fun r => (r.zipWith (fun x mj => x - mj) (colMeans M)).zipWith
        (fun x sj => if sj = 0 then x else x / sj) (colStds sq M))).getD i []).getD j 0) = 0 := by
  have hwM : width M = w := width_eq hM hw
  intro i hi
  rw [getD_map_pos _ _ hi _ []]
  have hrowmem : M.getD i [] ∈ M := by
    rw [List.getD_eq_getElem _ _ hi]
    exact List.getElem_mem hi
  have hrow : (M.getD i []).length = w := hw _ hrowmem
  have hj1 : j < (List.zipWith (fun x mj => x - mj) (M.getD i []) (colMeans M)).length := by
    rw [List.length_zipWith, hrow, length_colMeans, hwM, min_self]
    exact hj
  rw [getD_zipWith_pos _ _ _ hj1 (by rw [length_colStds, hwM]; exact hj) _ 0 0,
    getD_zipWith_pos _ _ _ (by rw [hrow]; exact hj)
      (by rw [length_colMeans, hwM]; exact hj) _ 0 0,
    getD_colMeans (by rw [hwM]; exact hj), getD_colStds (by rw [hwM]; exact hj),
    colVar_const hM hconst, hsq0, if_pos rfl, colMean_const hM hconst, hconst _ hrowmem]
  ring

/-- C2: a feature column constant within the (single, global) group comes out
exactly zero after fit-then-apply — the zero std is guarded, never divided by —
and in the scalar-std case a zero std zeroes the whole matrix instead of
raising a division error. -/
theorem C2_constant_column_zero
    (sq : ℚ → ℚ) (h : Heap) (ds : Dataset) (M : Mat) (w j : ℕ) (cst : ℚ) (dtb : DType)
    (hsq0 : sq 0 = 0)
    (hread : readH h ds.samples = ⟨dtb, M⟩)
    (hM : M ≠ [])
    (hw : ∀ r ∈ M, r.length = w)
    (hj : j < w)
    (hconst : ∀ r ∈ M, r.getD j 0 = cst) :
    (∃ out, fitApply sq (ZScoreMapper.init none none none .float) h ds = .ok out ∧
      out.length = M.length ∧ ∀ i < out.length, (out.getD i []).getD j 0 = 0) ∧
    (∀ (s : Mat) (c : ℚ), zscoreStep s (.scalar c) (.scalar 0)
      = .ok (s.map (fun r => r.map (fun _ => 0)))) := by
  constructor
  · have htp : trainParams sq (ZScoreMapper.init none none none .float) h ds
        = .ok [(.all, computeParams sq M)] := trainParams_global rfl rfl rfl hread
    have htr : (ZScoreMapper.init none none none .float).train sq h ds
        = .ok ⟨none, none, none, .float, some [(.all, computeParams sq M)], false⟩ := by
      unfold ZScoreMapper.train
      rw [htp]
      rfl
    have hzs := zscoreStep_vv M (colMeans M) (colStds sq M)
      (by rw [length_colMeans]) (by rw [length_colStds])
    have hall : pdLookup [(.all, computeParams sq M)] .all = some (computeParams sq M) := rfl
    have hsc : Dataset.shallowCopy h ds
        = (h ++ [⟨dtb, M⟩], {ds with samples := h.length}) := by
      unfold Dataset.shallowCopy allocH
      rw [hread]
    refine ⟨M.map (fun r => (r.zipWith (fun x mj => x - mj) (colMeans M)).zipWith
      (fun x sj => if sj = 0 then x else x / sj) (colStds sq M)), ?_, by simp, ?_⟩
    · have hfw : forwardDataset
          ⟨none, none, none, .float, some [(.all, computeParams sq M)], false⟩ h ds
          = .ok (writeH ((if dtb = .int then h ++ [⟨dtb, M⟩] ++ [⟨.float, M⟩]
                else h ++ [⟨dtb, M⟩]))
              (if dtb = .int then h.length + 1 else h.length)
              ⟨if dtb = .int then .float else dtb,
                M.map (fun r => (r.zipWith (fun x mj => x - mj) (colMeans M)).zipWith
                  (fun x sj => if sj = 0 then x else x / sj) (colStds sq M))⟩,
              ⟨if dtb = .int then h.length + 1 else h.length, ds.sa⟩, ds) := by
        rw [forwardDataset_nochunks rfl rfl, if_neg (by simp : ¬(false = true)), hsc]
        cases dtb with
        | float =>
          rw [upcast_float (by exact readH_alloc_fresh h _),
            applyParams_global hall (by exact readH_alloc_fresh h _)]
          unfold computeParams
          rw [hzs]
          rfl
        | int =>
          rw [upcast_int (by exact readH_alloc_fresh h _),
            applyParams_global hall (by exact readH_alloc_fresh _ _)]
          unfold computeParams
          rw [hzs]
          have hlen : (h ++ [(⟨.int, M⟩ : Buf)]).length = h.length + 1 := by simp
          rw [show ({samples := h.length, sa := ds.sa} : Dataset)
              = ({samples := h.length, sa := ds.sa} : Dataset) from rfl]
          show Except.ok (writeH (h ++ [⟨.int, M⟩] ++ [⟨.float, M⟩])
              (h ++ [(⟨.int, M⟩ : Buf)]).length ⟨.float, _⟩, _, _) = _
          rw [hlen]
          rfl
      unfold fitApply
      rw [htr]
      show Except.bind (forwardDataset
        ⟨none, none, none, .float, some [(.all, computeParams sq M)], false⟩ h ds)
        (fun fr => Except.ok (readH fr.1 fr.2.1.samples).data) = _
      rw [hfw]
      show Except.ok (readH _ _).data = _
      cases dtb with
      | float =>
        rw [if_neg (by simp : ¬(DType.float = DType.int)),
          if_neg (by simp : ¬(DType.float = DType.int)),
          readH_writeH_self _ _ (by simp)]
      | int =>
        rw [if_pos rfl, if_pos rfl, readH_writeH_self _ _ (by simp)]
    · intro i hi
      rw [List.length_map] at hi
      exact zscore_entry_zero_col hsq0 hM hw hj hconst i hi
  · intro s c
    rw [zscoreStep_ss, if_pos rfl, List.map_map]
    simp [Function.comp, List.map_map]

/-- C2 witness: a 3-sample matrix whose second column is constant (value 7);
after fit-then-apply that column is exactly zero everywhere. -/
theorem C2_constant_column_zero_witness :
    (ratSqrt 0 = 0 ∧ (∀ r ∈ ([[1, 7], [2, 7], [3, 7]] : Mat), r.getD 1 0 = 7)) ∧
    ((∃ out, fitApply ratSqrt (ZScoreMapper.init none none none .float)
        [⟨.float, [[1, 7], [2, 7], [3, 7]]⟩] ⟨0, []⟩ = .ok out ∧
      out.length = ([[1, 7], [2, 7], [3, 7]] : Mat).length ∧
      ∀ i < out.length, (out.getD i []).getD 1 0 = 0) ∧
    (∀ (s : Mat) (c : ℚ), zscoreStep s (.scalar c) (.scalar 0)
      = .ok (s.map (fun r => r.map (fun _ => 0))))) :=
  ⟨by decide,
    C2_constant_column_zero ratSqrt [⟨.float, [[1, 7], [2, 7], [3, 7]]⟩] ⟨0, []⟩
      [[1, 7], [2, 7], [3, 7]] 2 1 7 .float (by decide) (by decide) (by decide)
      (by decide) (by decide) (by decide)⟩

theorem chunkLoop_cons (pd : ParamsDict) (ca : List ℤ) (c : ℤ) (cs : List ℤ) (m : Mat) :
    chunkLoop pd ca (c :: cs) m =
      match pdLookup pd (.chunk c) with
      | none => .error .missingGroup
      | some p => Except.bind (zscoreStep (selectRows m (whereEq ca c)) p.1 p.2)
          (fun z => chunkLoop pd ca cs (setRows m (whereEq ca c) z)) := rfl

theorem gatherRows_nil_m (ca : List ℤ) (c : ℤ) : gatherRows [] ca c = [] := by
  induction ca with
  | nil => rfl
  | cons a as ih =>
    show gatherRows [] as c = []
    exact ih

theorem mem_gatherRows {m : Mat} {ca : List ℤ} {c : ℤ} {r : List ℚ}
    (hr : r ∈ gatherRows m ca c) : r ∈ m := by
  induction ca generalizing m with
  | nil => rw [gatherRows_nil_ca] at hr; simp at hr
  | cons a as ih =>
    cases m with
    | nil => rw [gatherRows_nil_m] at hr; simp at hr
    | cons r0 rs =>
      rw [gatherRows_cons] at hr
      by_cases hac : a = c
      · rw [if_pos hac] at hr
        rcases List.mem_cons.mp hr with h1 | h1
        · simp [h1]
        · exact List.mem_cons_of_mem _ (ih h1)
      · rw [if_neg hac] at hr
        exact List.mem_cons_of_mem _ (ih hr)

theorem gatherRows_ne_nil {m : Mat} {ca : List ℤ} {c : ℤ}
    (hc : c ∈ ca) (hlen : ca.length = m.length) : gatherRows m ca c ≠ [] := by
  induction ca generalizing m with
  | nil => simp at hc
  | cons a as ih =>
    cases m with
    | nil => simp at hlen
    | cons r0 rs =>
      rw [gatherRows_cons]
      by_cases hac : a = c
      · rw [if_pos hac]
        simp
      · rw [if_neg hac]
        have hcas : c ∈ as := by
          rcases List.mem_cons.mp hc with h1 | h1
          · exact absurd h1.symm hac
          · exact h1
        exact ih hcas (by simpa using hlen)

theorem length_scatterRows (m : Mat) (ca : List ℤ) (c : ℤ) (z : Mat) :
    (scatterRows m ca c z).length = m.length := by
  induction ca generalizing m z with
  | nil => rw [scatterRows_nil_ca]
  | cons a as ih =>
    cases m with
    | nil => rfl
    | cons r0 rs =>
      rw [scatterRows_cons]
      by_cases hac : a = c
      · rw [if_pos hac]
        simp [ih]
      · rw [if_neg hac]
        simp [ih]

theorem mem_scatterRows {m : Mat} {ca : List ℤ} {c : ℤ} {z : Mat} {r : List ℚ}
    (hr : r ∈ scatterRows m ca c z) : r ∈ m ∨ r ∈ z := by
  induction ca generalizing m z with
  | nil => rw [scatterRows_nil_ca] at hr; exact Or.inl hr
  | cons a as ih =>
    cases m with
    | nil => simp [scatterRows] at hr
    | cons r0 rs =>
      rw [scatterRows_cons] at hr
      by_cases hac : a = c
      · rw [if_pos hac] at hr
        rcases List.mem_cons.mp hr with h1 | h1
        · cases z with
          | nil => exact Or.inl (by simp [h1, List.headD_nil])
          | cons x xs => exact Or.inr (by simp [h1, List.headD_cons])
        · rcases ih h1 with h2 | h2
          · exact Or.inl (List.mem_cons_of_mem _ h2)
          · cases z with
            | nil => simp at h2
            | cons x xs => exact Or.inr (List.mem_cons_of_mem _ (by simpa using h2))
      · rw [if_neg hac] at hr
        rcases List.mem_cons.mp hr with h1 | h1
        · exact Or.inl (by simp [h1])
        · rcases ih h1 with h2 | h2
          · exact Or.inl (List.mem_cons_of_mem _ h2)
          · exact Or.inr h2

theorem chunkLoop_missing {pd : ParamsDict} {ca : List ℤ} {w : ℕ} (cs : List ℤ)
    (hsub : ∀ x ∈ cs, x ∈ ca)
    (hmiss : ∃ x ∈ cs, pdLookup pd (.chunk x) = none)
    (hpres : ∀ x ∈ cs, ∀ p, pdLookup pd (.chunk x) = some p → fitsW p.1 w ∧ fitsW p.2 w) :
    ∀ m : Mat, (∀ r ∈ m, r.length = w) → ca.length = m.length →
      chunkLoop pd ca cs m = .error .missingGroup := by
  induction cs with
  | nil => simp at hmiss
  | cons c cs ih =>
    intro m hrect hlen
    rw [chunkLoop_cons]
    cases hl : pdLookup pd (.chunk c) with
    | none => rfl
    | some p =>
      obtain ⟨hf1, hf2⟩ := hpres c (by simp) p hl
      have hbridge : selectRows m (whereEq ca c) = gatherRows m ca c :=
        selectRows_whereEq m ca c hlen
      have hslice_ne : gatherRows m ca c ≠ [] := gatherRows_ne_nil (hsub c (by simp)) hlen
      have hslice_w : ∀ r ∈ gatherRows m ca c, r.length = w :=
        fun r hr => hrect r (mem_gatherRows hr)
      obtain ⟨z, hz, hzlen, hzw⟩ := zscoreStep_ok hslice_ne hslice_w hf1 hf2
      show Except.bind (zscoreStep (selectRows m (whereEq ca c)) p.1 p.2)
        (fun z => chunkLoop pd ca cs (setRows m (whereEq ca c) z)) = _
      rw [hbridge, hz]
      show chunkLoop pd ca cs (setRows m (whereEq ca c) z) = .error .missingGroup
      have hset : setRows m (whereEq ca c) z = scatterRows m ca c z :=
        setRows_whereEq m ca c z hlen
      rw [hset]
      refine ih (fun x hx => hsub x (by simp [hx])) ?_
        (fun x hx p2 hp2 => hpres x (by simp [hx]) p2 hp2)
        (scatterRows m ca c z) ?_ ?_
      · obtain ⟨x, hx, hxm⟩ := hmiss
        rcases List.mem_cons.mp hx with h1 | h1
        · rw [h1] at hxm
          rw [hxm] at hl
          exact absurd hl (by simp)
        · exact ⟨x, h1, hxm⟩
      · intro r hr
        rcases mem_scatterRows hr with h2 | h2
        · exact hrect r h2
        · exact hzw r h2
      · rw [length_scatterRows]
        exact hlen

theorem working_read (zm : ZScoreMapper) (h : Heap) (ds : Dataset) {dtb : DType} {M : Mat}
    (hread : readH h ds.samples = ⟨dtb, M⟩) :
    ∃ dt2, readH (upcast zm (if zm.secret_inplace then (h, ds)
          else Dataset.shallowCopy h ds)).1
        (upcast zm (if zm.secret_inplace then (h, ds)
          else Dataset.shallowCopy h ds)).2.samples = ⟨dt2, M⟩ := by
  cases hip : zm.secret_inplace with
  | true =>
    rw [if_pos rfl]
    cases dtb with
    | float =>
      rw [upcast_float hread]
      exact ⟨.float, hread⟩
    | int =>
      rw [upcast_int hread]
      exact ⟨zm.dtype, readH_alloc_fresh h _⟩
  | false =>
    rw [if_neg (by simp)]
    have hsc : Dataset.shallowCopy h ds
        = (h ++ [⟨dtb, M⟩], {ds with samples := h.length}) := by
      unfold Dataset.shallowCopy allocH
      rw [hread]
    rw [hsc]
    cases dtb with
    | float =>
      rw [upcast_float (by exact readH_alloc_fresh h _)]
      exact ⟨.float, readH_alloc_fresh h _⟩
    | int =>
      rw [upcast_int (by exact readH_alloc_fresh h _)]
      exact ⟨zm.dtype, readH_alloc_fresh _ _⟩

/-- C4: a trained mapper with grouping and purely per-group parameters fails
with the missing-group error when the collection carries a group value absent
from the stored dictionary (the present groups being shape-compatible, per the
spec's own invariant on parameter vectors). -/
theorem C4_missing_group_error
    (zm : ZScoreMapper) (h : Heap) (ds : Dataset) (nm : String) (ca : List ℤ)
    (pd : ParamsDict) (M : Mat) (w : ℕ) (dtb : DType) (c : ℤ)
    (hch : zm.chunks = some nm)
    (hpd : zm.params_dict = some pd)
    (hnoall : pdLookup pd .all = none)
    (hsa : saLookup ds nm = some ca)
    (hread : readH h ds.samples = ⟨dtb, M⟩)
    (hlen : ca.length = M.length)
    (hw : ∀ r ∈ M, r.length = w)
    (hc : c ∈ ca)
    (hmiss : pdLookup pd (.chunk c) = none)
    (hpres : ∀ x ∈ ca, ∀ p, pdLookup pd (.chunk x) = some p → fitsW p.1 w ∧ fitsW p.2 w) :
    forwardDataset zm h ds = .error .missingGroup := by
  have hca : ca ≠ [] := List.ne_nil_of_mem hc
  rw [forwardDataset_chunks hch hsa hca hpd]
  obtain ⟨dt2, hwr⟩ := working_read zm h ds hread
  rw [applyParams_chunked hnoall hwr]
  rw [chunkLoop_missing ca.dedup (fun x hx => List.mem_dedup.mp hx)
    ⟨c, List.mem_dedup.mpr hc, hmiss⟩
    (fun x hx p hp => hpres x (List.mem_dedup.mp hx) p hp) M hw hlen]

/-- C4 witness: a mapper holding parameters only for chunk 1, applied to a
collection that also contains chunk 2. -/
theorem C4_missing_group_error_witness :
    (pdLookup [(.chunk 1, (.vector [0], .vector [1]))] .all = none ∧
      (2 : ℤ) ∈ [(1 : ℤ), 2] ∧
      pdLookup [(.chunk 1, (.vector [0], .vector [1]))] (.chunk 2) = none) ∧
    forwardDataset c4zm [⟨.float, [[5], [6]]⟩] c4ds = .error .missingGroup :=
  ⟨by decide,
    C4_missing_group_error c4zm [⟨.float, [[5], [6]]⟩] c4ds "chunks" [1, 2]
      [(.chunk 1, (.vector [0], .vector [1]))] [[5], [6]] 1 .float 2
      (by decide) (by decide) (by decide) (by decide) (by decide) (by decide)
      (by decide) (by decide) (by decide) (by decide)⟩

theorem trainParams_chunked {sq : ℚ → ℚ} {zm : ZScoreMapper} {h : Heap} {ds : Dataset}
    {M : Mat} {dtb : DType} {nm : String} {ca : List ℤ}
    (hparams : zm.params = none) (hpe : zm.param_est = none) (hch : zm.chunks = some nm)
    (hsa : saLookup ds nm = some ca) (hread : readH h ds.samples = ⟨dtb, M⟩) :
    trainParams sq zm h ds = .ok ((ca.dedup).map (fun c =>
      (PKey.chunk c, computeParams sq (selectRows M (whereEq ca c))))) := by
  unfold trainParams
  simp only [hparams, hpe, hch, hsa, hread]
  exact rfl

theorem pdLookup_chunk_self (c : ℤ) (P : MeanStd) :
    pdLookup [(.chunk c, P)] (.chunk c) = some P := by
  unfold pdLookup
  rw [List.find?_cons_of_pos _ (by simp)]
  rfl

theorem pdLookup_chunk_no_all (c : ℤ) (P : MeanStd) :
    pdLookup [(.chunk c, P)] .all = none := by
  unfold pdLookup
  rw [List.find?_cons_of_neg _ (by simp), List.find?_nil]
  rfl

theorem fitApply_global_eval (sq : ℚ → ℚ) (dty : DType) (pd0 : Option ParamsDict)
    (h : Heap) (ds : Dataset) (dtb : DType) (M : Mat)
    (hread : readH h ds.samples = ⟨dtb, M⟩) :
    fitApply sq ⟨none, none, none, dty, pd0, false⟩ h ds = .ok (vvApply sq M) := by
  have htp : trainParams sq ⟨none, none, none, dty, pd0, false⟩ h ds
      = .ok [(.all, computeParams sq M)] := trainParams_global rfl rfl rfl hread
  have htr : ZScoreMapper.train ⟨none, none, none, dty, pd0, false⟩ sq h ds
      = .ok ⟨none, none, none, dty, some [(.all, computeParams sq M)], false⟩ := by
    unfold ZScoreMapper.train
    rw [htp]
    rfl
  have hzs := zscoreStep_vv M (colMeans M) (colStds sq M)
    (length_colMeans M).symm (length_colStds sq M).symm
  have hsc : Dataset.shallowCopy h ds
      = (h ++ [⟨dtb, M⟩], {ds with samples := h.length}) := by
    unfold Dataset.shallowCopy allocH
    rw [hread]
  have hall : pdLookup [(.all, computeParams sq M)] .all = some (computeParams sq M) := rfl
  unfold fitApply
  rw [htr]
  show Except.bind (forwardDataset
    ⟨none, none, none, dty, some [(.all, computeParams sq M)], false⟩ h ds)
    (fun fr => Except.ok (readH fr.1 fr.2.1.samples).data) = _
  rw [forwardDataset_nochunks rfl rfl, if_neg (by simp : ¬(false = true)), hsc]
  cases dtb with
  | float =>
    rw [upcast_float (by exact readH_alloc_fresh h _),
      applyParams_global hall (by exact readH_alloc_fresh h _)]
    unfold computeParams
    rw [hzs]
    show Except.ok (readH (writeH (h ++ [⟨.float, M⟩]) h.length
      ⟨.float, vvApply sq M⟩) h.length).data = _
    rw [readH_writeH_self _ _ (by simp)]
  | int =>
    rw [upcast_int (by exact readH_alloc_fresh h _),
      applyParams_global hall (by exact readH_alloc_fresh _ _)]
    unfold computeParams
    rw [hzs]
    show Except.ok (readH (writeH (h ++ [⟨.int, M⟩] ++ [⟨dty, M⟩])
      (h ++ [(⟨.int, M⟩ : Buf)]).length ⟨dty, vvApply sq M⟩)
      (h ++ [(⟨.int, M⟩ : Buf)]).length).data = _
    rw [readH_writeH_self _ _ (by simp)]

theorem fitApply_grouped_const_eval (sq : ℚ → ℚ) (nm : String) (dty : DType)
    (pd0 : Option ParamsDict) (h : Heap) (ds : Dataset) (dtb : DType) (M : Mat)
    (ca : List ℤ) (c : ℤ)
    (hsa : saLookup ds nm = some ca) (hread : readH h ds.samples = ⟨dtb, M⟩)
    (hconst : ∀ x ∈ ca, x = c) (hca : ca ≠ []) (hlen : ca.length = M.length) :
    fitApply sq ⟨some nm, none, none, dty, pd0, false⟩ h ds = .ok (vvApply sq M) := by
  have hsel : selectRows M (whereEq ca c) = M := by
    rw [selectRows_whereEq M ca c hlen, gatherRows_all hlen hconst]
  have htp : trainParams sq ⟨some nm, none, none, dty, pd0, false⟩ h ds
      = .ok [(.chunk c, computeParams sq M)] := by
    rw [trainParams_chunked rfl rfl rfl hsa hread, dedup_const hca hconst]
    rw [List.map_singleton, hsel]
  have htr : ZScoreMapper.train ⟨some nm, none, none, dty, pd0, false⟩ sq h ds
      = .ok ⟨some nm, none, none, dty, some [(.chunk c, computeParams sq M)], false⟩ := by
    unfold ZScoreMapper.train
    rw [htp]
    rfl
  have hzs := zscoreStep_vv M (colMeans M) (colStds sq M)
    (length_colMeans M).symm (length_colStds sq M).symm
  have hsc : Dataset.shallowCopy h ds
      = (h ++ [⟨dtb, M⟩], {ds with samples := h.length}) := by
    unfold Dataset.shallowCopy allocH
    rw [hread]
  have hloop : chunkLoop [(.chunk c, computeParams sq M)] ca (ca.dedup) M
      = .ok (vvApply sq M) := by
    rw [dedup_const hca hconst, chunkLoop_cons, pdLookup_chunk_self]
    show Except.bind (zscoreStep (selectRows M (whereEq ca c))
      (computeParams sq M).1 (computeParams sq M).2)
      (fun z => chunkLoop [(.chunk c, computeParams sq M)] ca []
        (setRows M (whereEq ca c) z)) = _
    rw [hsel]
    unfold computeParams
    rw [hzs]
    show Except.ok (setRows M (whereEq ca c) (vvApply sq M)) = _
    rw [setRows_whereEq M ca c _ hlen,
      scatterRows_all hlen (by unfold vvApply; simp) hconst]
  unfold fitApply
  rw [htr]
  show Except.bind (forwardDataset
    ⟨some nm, none, none, dty, some [(.chunk c, computeParams sq M)], false⟩ h ds)
    (fun fr => Except.ok (readH fr.1 fr.2.1.samples).data) = _
  rw [forwardDataset_chunks rfl hsa hca rfl, if_neg (by simp : ¬(false = true)), hsc]
  cases dtb with
  | float =>
    rw [upcast_float (by exact readH_alloc_fresh h _),
      applyParams_chunked (pdLookup_chunk_no_all c _) (by exact readH_alloc_fresh h _),
      hloop]
    show Except.ok (readH (writeH (h ++ [⟨.float, M⟩]) h.length
      ⟨.float, vvApply sq M⟩) h.length).data = _
    rw [readH_writeH_self _ _ (by simp)]
  | int =>
    rw [upcast_int (by exact readH_alloc_fresh h _),
      applyParams_chunked (pdLookup_chunk_no_all c _) (by exact readH_alloc_fresh _ _),
      hloop]
    show Except.ok (readH (writeH (h ++ [⟨.int, M⟩] ++ [⟨dty, M⟩])
      (h ++ [(⟨.int, M⟩ : Buf)]).length ⟨dty, vvApply sq M⟩)
      (h ++ [(⟨.int, M⟩ : Buf)]).length).data = _
    rw [readH_writeH_self _ _ (by simp)]

/-- C6: when every sample carries the same grouping value, the grouped and the
ungrouped configuration (fit then apply on the same collection) produce the
same output matrix. -/
theorem C6_grouped_global_equivalence
    (sq : ℚ → ℚ) (nm : String) (dty : DType) (h : Heap) (ds : Dataset)
    (dtb : DType) (M : Mat) (ca : List ℤ) (c : ℤ)
    (hsa : saLookup ds nm = some ca) (hread : readH h ds.samples = ⟨dtb, M⟩)
    (hconst : ∀ x ∈ ca, x = c) (hca : ca ≠ []) (hlen : ca.length = M.length) :
    ∃ out, fitApply sq (ZScoreMapper.init none none (some nm) dty) h ds = .ok out ∧
      fitApply sq (ZScoreMapper.init none none none dty) h ds = .ok out :=
  ⟨vvApply sq M,
    fitApply_grouped_const_eval sq nm dty none h ds dtb M ca c hsa hread hconst hca hlen,
    fitApply_global_eval sq dty none h ds dtb M hread⟩

/-- C6 witness: a two-sample collection where both samples are in chunk 4. -/
theorem C6_grouped_global_equivalence_witness :
    ((∀ x ∈ ([4, 4] : List ℤ), x = 4) ∧
      saLookup ⟨0, [("chunks", [4, 4])]⟩ "chunks" = some [4, 4]) ∧
    (∃ out, fitApply ratSqrt (ZScoreMapper.init none none (some "chunks") .float)
        [⟨.float, [[0, 1], [2, 1]]⟩] ⟨0, [("chunks", [4, 4])]⟩ = .ok out ∧
      fitApply ratSqrt (ZScoreMapper.init none none none .float)
        [⟨.float, [[0, 1], [2, 1]]⟩] ⟨0, [("chunks", [4, 4])]⟩ = .ok out) :=
  ⟨by decide,
    C6_grouped_global_equivalence ratSqrt "chunks" .float
      [⟨.float, [[0, 1], [2, 1]]⟩] ⟨0, [("chunks", [4, 4])]⟩ .float
      [[0, 1], [2, 1]] [4, 4] 4 (by decide) (by decide) (by decide) (by decide)
      (by decide)⟩

theorem trainParams_chunked_est {sq : ℚ → ℚ} {zm : ZScoreMapper} {h : Heap} {ds : Dataset}
    {M : Mat} {dtb : DType} {nm a : String} {ca av vals : List ℤ}
    (hparams : zm.params = none) (hpe : zm.param_est = some (a, vals))
    (hch : zm.chunks = some nm) (hsaa : saLookup ds a = some av)
    (hsa : saLookup ds nm = some ca) (hread : readH h ds.samples = ⟨dtb, M⟩) :
    trainParams sq zm h ds = .ok ((ca.dedup).map (fun c =>
      (PKey.chunk c, computeParams sq (selectRows M
        ((whereEq ca c).filter (fun i => decide (i ∈ estIds av vals))))))) := by
  unfold trainParams
  simp only [hparams, hpe, hch, hsaa, hsa, hread]
  exact rfl

theorem filter_est (ca av vals : List ℤ) (c : ℤ) (hlen : av.length = ca.length) :
    (whereEq ca c).filter (fun i => decide (i ∈ estIds av vals)) =
      (List.range ca.length).filter
        (fun i => decide (ca.getD i 0 = c ∧ av.getD i 0 ∈ vals)) := by
  unfold whereEq
  rw [List.filter_filter]
  apply List.filter_congr
  intro i hi
  rw [List.mem_range] at hi
  have hmem : (i ∈ estIds av vals) ↔ (av.getD i 0 ∈ vals) := by
    unfold estIds
    rw [List.mem_filter, List.mem_range]
    constructor
    · exact fun hp => of_decide_eq_true hp.2
    · exact fun hp => ⟨by rw [hlen]; exact hi, decide_eq_true hp⟩
  simp [hmem, Bool.and_comm]

/-- What the selector does do in the configuration that works (grouping
configured): the trained per-chunk parameters are estimated exactly from the
rows of that chunk whose selector attribute value is accepted, and the apply
path is entirely independent of the selector. -/
theorem trainParams_grouped_selector_rows
    (sq : ℚ → ℚ) (nm a : String) (vals : List ℤ) (dty : DType)
    (pd0 : Option ParamsDict) (ip : Bool) (h : Heap) (ds : Dataset)
    (dtb : DType) (M : Mat) (ca av : List ℤ)
    (hsaa : saLookup ds a = some av) (hsa : saLookup ds nm = some ca)
    (hread : readH h ds.samples = ⟨dtb, M⟩) (hlenav : av.length = ca.length) :
    (trainParams sq ⟨some nm, none, some (a, vals), dty, pd0, ip⟩ h ds
      = .ok ((ca.dedup).map (fun c => (PKey.chunk c, computeParams sq (selectRows M
          ((List.range ca.length).filter (fun i =>
            decide (ca.getD i 0 = c ∧ av.getD i 0 ∈ vals)))))))) ∧
    (∀ (zm : ZScoreMapper) (pe : Option (String × List ℤ)) (h2 : Heap) (ds2 : Dataset),
      forwardDataset {zm with param_est := pe} h2 ds2
        = forwardDataset {zm with param_est := none} h2 ds2) := by
  constructor
  · rw [trainParams_chunked_est rfl rfl rfl hsaa hsa hread]
    have hfun : (fun c => (PKey.chunk c, computeParams sq (selectRows M
          ((whereEq ca c).filter (fun i => decide (i ∈ estIds av vals))))))
        = (fun c => (PKey.chunk c, computeParams sq (selectRows M
          ((List.range ca.length).filter (fun i =>
            decide (ca.getD i 0 = c ∧ av.getD i 0 ∈ vals)))))) := by
      funext c
      rw [filter_est ca av vals c hlenav]
    rw [hfun]
  · intro zm pe h2 ds2
    rfl

/-- C7: evaluation of the embedded code at the claim's failing configuration —
a selector with grouping disabled.  The source's global-estimate branch indexes
`ds.samples[est_ids]` with a Python set (zscore.py line 146), which numpy
rejects, so fit raises the set-index error instead of computing the S-derived
parameters the claim (and the spec) promise; the chunked branch, which converts
the set to a list first, works as claimed (see
`trainParams_grouped_selector_rows`). -/
theorem C7_ungrouped_selector_fit_fails :
    trainParams ratSqrt ⟨none, none, some ("sel", [1]), .float, none, false⟩
      [⟨.float, [[0], [2]]⟩] ⟨0, [("sel", [1, 0])]⟩ = .error .setIndexError ∧
    ZScoreMapper.train ⟨none, none, some ("sel", [1]), .float, none, false⟩ ratSqrt
      [⟨.float, [[0], [2]]⟩] ⟨0, [("sel", [1, 0])]⟩ = .error .setIndexError ∧
    fitApply ratSqrt ⟨none, none, some ("sel", [1]), .float, none, false⟩
      [⟨.float, [[0], [2]]⟩] ⟨0, [("sel", [1, 0])]⟩ = .error .setIndexError := by
  decide

/-- C9 counterexample: the convenience function fits and applies in place — the
heap afterwards holds the normalized matrix [[-1], [1]] in the dataset's buffer
— but its Python return value is None, not the normalized result the claim says
it returns to the caller. -/
theorem C9_counterexample_returns_none :
    zscoreFn ratSqrt none none none .float [⟨.float, [[0], [2]]⟩] (.ds ⟨0, []⟩)
      = .ok ([⟨.float, [[-1], [1]]⟩], .ds ⟨0, []⟩, none) ∧
    some ([[-1], [1]] : Mat) ≠ (none : Option Mat) := by decide

/-- C9 amended: `zscore` builds a mapper with the in-place switch on, performs
fit immediately followed by apply, leaves the result in place (the collection's
buffer for a dataset; discarded for a bare matrix, whose object is returned
unchanged) and returns None. -/
theorem C9_zscore_fit_then_apply_returns_none
    (sq : ℚ → ℚ) (params : Option FixedParams) (pe : Option (String × List ℤ))
    (ch : Option String) (dt : DType) (h : Heap) (d : Dataset) (r : Ref) :
    (zscoreFn sq params pe ch dt h (.ds d) =
      (match ZScoreMapper.train ⟨ch, params, pe, dt, none, true⟩ sq h d with
        | .error e => .error e
        | .ok zm2 =>
          match forwardDataset zm2 h d with
          | .error e => .error e
          | .ok fr => .ok (fr.1, .ds fr.2.2, none))) ∧
    (zscoreFn sq params pe ch dt h (.arr r) =
      (match ZScoreMapper.train ⟨ch, params, pe, dt, none, true⟩ sq h ⟨r, []⟩ with
        | .error e => .error e
        | .ok zm2 =>
          match forwardData zm2 h r with
          | .error e => .error e
          | .ok fr => .ok (fr.1, .arr r, none))) := by
  constructor
  · unfold zscoreFn
    show Except.bind (ZScoreMapper.train ⟨ch, params, pe, dt, none, true⟩ sq h d)
      (fun zm2 => Except.bind (forwardDataset zm2 h d)
        (fun fr => Except.ok (fr.1, DataOrDs.ds fr.2.2, none))) = _
    cases ZScoreMapper.train ⟨ch, params, pe, dt, none, true⟩ sq h d with
    | error e => rfl
    | ok zm2 =>
      show Except.bind (forwardDataset zm2 h d)
        (fun fr => Except.ok (fr.1, DataOrDs.ds fr.2.2, none)) =
        (match forwardDataset zm2 h d with
          | .error e => .error e
          | .ok fr => Except.ok (fr.1, DataOrDs.ds fr.2.2, none))
      cases forwardDataset zm2 h d <;> rfl
  · unfold zscoreFn
    show Except.bind (ZScoreMapper.train ⟨ch, params, pe, dt, none, true⟩ sq h ⟨r, []⟩)
      (fun zm2 => Except.bind (forwardData zm2 h r)
        (fun fr => Except.ok (fr.1, DataOrDs.arr r, none))) = _
    cases ZScoreMapper.train ⟨ch, params, pe, dt, none, true⟩ sq h ⟨r, []⟩ with
    | error e => rfl
    | ok zm2 =>
      show Except.bind (forwardData zm2 h r)
        (fun fr => Except.ok (fr.1, DataOrDs.arr r, none)) =
        (match forwardData zm2 h r with
          | .error e => .error e
          | .ok fr => Except.ok (fr.1, DataOrDs.arr r, none))
      cases forwardData zm2 h r <;> rfl
